import Mathlib

/-!
# AD5592 Snack Board driver

A shallow embedding of the Raspberry Pi driver `AD5592RPI.c` / `AD5592RPI.h`, and of
the analog pass/fail check of the acceptance test `AD5592SnackATP.c`.

Conventions of the embedding:

* `uint8_t`, `uint16_t` and `char` objects are natural numbers holding the bit
  pattern; the conversions C performs on parameter passing and on stores are
  written out as `% 256` and `% 65536`.
* Memory is flat: `Driver.mem` gives the byte at every address, and the module-level
  variables of `AD5592RPI.h` live at the addresses recorded in `Platform`.  A store
  through a buffer pointer goes to the address `pointer + index`, whatever variable
  lies there; this is how the stores that `clearBuffer` makes past the end of a
  2-byte buffer reach the neighbouring variables.
* The bcm2835 library is a collaborator outside the driver.  Its calls are recorded, in
  program order, in the field `bus`; the bytes a slave clocks back during a transfer
  are supplied by `Platform.miso`, a function of the whole bus history.
* `float` is IEEE-754 binary32 with round-to-nearest-even and expressions of type
  `float` are evaluated in that format, as on the ARM targets of the driver.
-/

namespace AD5592

/-! ## binary32 arithmetic on non-negative finite values -/

/-- A non-negative finite value `m * 2 ^ e`; a binary32 number when `m ≤ 2 ^ 24`. -/
structure F32 where
  m : Nat
  e : Int
deriving DecidableEq

/-- One step of the binary search for the bit length: drop `k` low bits if the value has more. -/
def bitStep (p : Nat × Nat) (k : Nat) : Nat × Nat :=
  if 2 ^ k ≤ p.1 then (p.1 >>> k, p.2 + k) else p

/-- Number of binary digits of `n` (for `n < 2 ^ 128`, which covers every
product and quotient of two 24-bit significands). -/
def bitLen (n : Nat) : Nat :=
  let p := bitStep (bitStep (bitStep (bitStep (bitStep (bitStep (bitStep (n, 0) 64) 32) 16) 8) 4) 2) 1
  p.2 + p.1

/-- Round the exact value `n * 2 ^ e` to 24 significant bits, to nearest, ties to even. -/
def F32.round (n : Nat) (e : Int) : F32 :=
  if n < 2 ^ 24 then ⟨n, e⟩
  else
    let s := bitLen n - 24
    let q := n >>> s
    let r := n % 2 ^ s
    let half := 2 ^ (s - 1)
    if half < r ∨ (r = half ∧ q % 2 = 1) then ⟨q + 1, e + s⟩ else ⟨q, e + s⟩

/-- Conversion of an unsigned integer to `float`. -/
def F32.ofNat (n : Nat) : F32 := F32.round n 0

/-- The `float` product: the exact product, rounded once. -/
def F32.mul (x y : F32) : F32 := F32.round (x.m * y.m) (x.e + y.e)

/-- The `float` quotient `x / y` for `y ≠ 0`: the exact quotient, rounded once.  The
quotient of the significands is taken with 50 extra bits and a sticky bit for the
remainder, so the rounding sees on which side of every midpoint the exact value lies. -/
def F32.div (x y : F32) : F32 :=
  if x.m = 0 then ⟨0, 0⟩
  else
    let num := x.m <<< 50
    let q := num / y.m
    let sticky := if num % y.m = 0 then 0 else 1
    F32.round (2 * q + sticky) (x.e - y.e - 51)

/-- Conversion of a `float` to an unsigned integer: the fraction is discarded. -/
def F32.toNat (x : F32) : Nat :=
  if 0 ≤ x.e then x.m * 2 ^ x.e.toNat else x.m / 2 ^ (-x.e).toNat

/-- The literal `.819f`: the binary32 number nearest to 0.819, `13740540 / 2 ^ 24`. -/
def c819f : F32 := ⟨13740540, -24⟩

/-! ## AD5592RPI.h -/

abbrev AD5592_NOP : Nat := 0x0000
abbrev AD5592_ADC_READ : Nat := 0x1000
abbrev AD5592_ADC_PIN_SELECT : Nat := 0x2000
abbrev AD5592_DAC_PIN_SELECT : Nat := 0x2800
abbrev AD5592_GPIO_WRITE_CONFIG : Nat := 0x4000
abbrev AD5592_GPIO_WRITE_DATA : Nat := 0x4800
abbrev AD5592_GPIO_READ_CONFIG : Nat := 0x5000
abbrev AD5592_GPIO_READ_INPUT : Nat := 0x5400
abbrev AD5592_SW_RESET : Nat := 0x7DAC
abbrev AD5592_PIN_SELECT_MASK : Nat := 0x00FF
abbrev AD5592_DAC_WRITE_MASK : Nat := 0x8000
abbrev AD5592_DAC_ADDRESS_MASK : Nat := 0x7000
abbrev AD5592_DAC_VALUE_MASK : Nat := 0x0FFF
abbrev SHORT_DELAY : Nat := 10
abbrev LONG_DELAY : Nat := 50
/-- The chip-select identifiers `BCM2835_SPI_CS0`, `BCM2835_SPI_CS1` and the level `LOW` of bcm2835.h. -/
abbrev CHANNEL0 : Nat := 0
abbrev CHANNEL1 : Nat := 1
abbrev LOW : Nat := 0

/-- A call into the bcm2835 library, as seen on the bus. -/
inductive Event where
  | transfern (out : List Nat)
  | transfernb (out : List Nat)
  | delay (ms : Nat)
  | chipSelect (cs : Nat)
  | setChipSelectPolarity (cs : Nat) (active : Nat)
deriving DecidableEq

/-- What the source leaves to the compiler, the linker and the hardware: `ptrBytes` is
`sizeof(char *)`, the value of `sizeof(spiBuffer)` inside `clearBuffer`; `miso` gives
the two bytes clocked in during a transfer, from the bus history up to and including
that transfer; the remaining fields are the addresses at which the module-level
variables `spiOut`, `spiIn`, `digitalOutPins`, `digitalInPins`, `analogOutPins` and
`analogInPins` of AD5592RPI.h are placed. -/
structure Platform where
  ptrBytes : Nat
  miso : List Event → Nat × Nat
  spiOutAt : Nat
  spiInAt : Nat
  digitalOutAt : Nat
  digitalInAt : Nat
  analogOutAt : Nat
  analogInAt : Nat

/-- The memory of the program, one byte per address, and the record of the bus. -/
structure Driver where
  mem : Nat → Nat
  bus : List Event

/-- The byte at address `a`. -/
def Driver.load (d : Driver) (a : Nat) : Nat := d.mem a % 256

/-- The assignment of the byte `v` to the object at address `a`. -/
def Driver.store (d : Driver) (a v : Nat) : Driver :=
  { d with mem := fun x => if x = a then v % 256 else d.mem x }

/-- The variable `digitalOutPins`. -/
def Driver.digitalOutPins (d : Driver) (hw : Platform) : Nat := d.load hw.digitalOutAt

/-- The variable `digitalInPins`. -/
def Driver.digitalInPins (d : Driver) (hw : Platform) : Nat := d.load hw.digitalInAt

/-- The variable `analogOutPins`. -/
def Driver.analogOutPins (d : Driver) (hw : Platform) : Nat := d.load hw.analogOutAt

/-- The variable `analogInPins`. -/
def Driver.analogInPins (d : Driver) (hw : Platform) : Nat := d.load hw.analogInAt

/-- The memory at program start (every variable of the header is zero), nothing sent yet. -/
def Driver.init : Driver := { mem := fun _ => 0x00, bus := [] }

/-! ## bcm2835 calls -/

/-- The call `bcm2835_spi_transfern(buf, 2)`: the two bytes of the buffer are clocked
out and the bytes read back replace them. -/
def bcm2835_spi_transfern (hw : Platform) (buf : Nat) (d : Driver) : Driver :=
  let bus := d.bus ++ [Event.transfern [d.load buf, d.load (buf + 1)]]
  let r := hw.miso bus
  let d := { d with bus := bus }
  let d := d.store buf r.1
  d.store (buf + 1) r.2

/-- The call `bcm2835_spi_transfernb(tbuf, rbuf, 2)`: the two bytes of `tbuf` are clocked
out and the bytes read back are placed in `rbuf`. -/
def bcm2835_spi_transfernb (hw : Platform) (tbuf rbuf : Nat) (d : Driver) : Driver :=
  let bus := d.bus ++ [Event.transfernb [d.load tbuf, d.load (tbuf + 1)]]
  let r := hw.miso bus
  let d := { d with bus := bus }
  let d := d.store rbuf r.1
  d.store (rbuf + 1) r.2

/-- The call `bcm2835_delay(ms)`. -/
def bcm2835_delay (ms : Nat) (d : Driver) : Driver :=
  { d with bus := d.bus ++ [Event.delay ms] }

/-- The call `bcm2835_spi_chipSelect(cs)`. -/
def bcm2835_spi_chipSelect (cs : Nat) (d : Driver) : Driver :=
  { d with bus := d.bus ++ [Event.chipSelect cs] }

/-- The call `bcm2835_spi_setChipSelectPolarity(cs, active)`. -/
def bcm2835_spi_setChipSelectPolarity (cs active : Nat) (d : Driver) : Driver :=
  { d with bus := d.bus ++ [Event.setChipSelectPolarity cs active] }

/-! ## AD5592RPI.c -/

/-- The values `i` takes in the loop of `clearBuffer`: `0, ..., sizeof(spiBuffer) - 1`. -/
def clearBufferIndices (hw : Platform) : List Nat := List.range hw.ptrBytes

/-- The loop `for(i=0;i<sizeof(spiBuffer);i++) spiBuffer[i] = 0x00;` where `spiBuffer`
is a parameter of type `char[]`, a pointer, so that `sizeof(spiBuffer)` is
`sizeof(char *)`.  The argument `spiBuffer` is the address the pointer holds. -/
def clearBuffer (hw : Platform) (spiBuffer : Nat) (d : Driver) : Driver :=
  (clearBufferIndices hw).foldl (fun s i => s.store (spiBuffer + i) 0x00) d

/-- Split the 16-bit word into the two bytes of the buffer at address `eightBits`. -/
def makeWord (hw : Platform) (eightBits : Nat) (sixteenBits : Nat) (d : Driver) : Driver :=
  let sixteenBits := sixteenBits % 65536
  let d := clearBuffer hw eightBits d
  let d := d.store (eightBits + 0) ((sixteenBits &&& 0xFF00) >>> 8)
  d.store (eightBits + 1) (sixteenBits &&& 0xFF)

/-- Select the SPI channel. -/
def setAD5592Ch (ch : Int) (d : Driver) : Driver :=
  if ch = 0 then
    bcm2835_spi_setChipSelectPolarity CHANNEL0 LOW (bcm2835_spi_chipSelect CHANNEL0 d)
  else if ch = 1 then
    bcm2835_spi_setChipSelectPolarity CHANNEL1 LOW (bcm2835_spi_chipSelect CHANNEL1 d)
  else d

/-- Millivolts to counts: `uint16_t count = millivolts * .819f`. -/
def a2d (millivolts : Nat) : Nat :=
  let millivolts := millivolts % 65536
  let count := F32.toNat (F32.mul (F32.ofNat millivolts) c819f) % 65536
  count

/-- Counts to millivolts: `uint16_t millivolts = count / .819f`. -/
def d2a (count : Nat) : Nat :=
  let count := count % 65536
  let millivolts := F32.toNat (F32.div (F32.ofNat count) c819f) % 65536
  millivolts

/-- Set pins to digital outputs.  The parameter of this function and of the three that
follow has the type `uint8_t` of the definitions in AD5592RPI.c. -/
def setAsDigitalOut (hw : Platform) (pins : Nat) (d : Driver) : Driver :=
  let pins := pins % 256
  let d := d.store hw.digitalOutAt pins
  let d := makeWord hw hw.spiOutAt (AD5592_GPIO_WRITE_CONFIG ||| pins) d
  bcm2835_spi_transfern hw hw.spiOutAt d

/-- Set pins to digital inputs. -/
def setAsDigitalIn (hw : Platform) (pins : Nat) (d : Driver) : Driver :=
  let pins := pins % 256
  let d := d.store hw.digitalInAt pins
  let d := makeWord hw hw.spiOutAt (AD5592_GPIO_READ_CONFIG ||| pins) d
  bcm2835_spi_transfern hw hw.spiOutAt d

/-- Set pins to analog outputs. -/
def setAsDAC (hw : Platform) (pins : Nat) (d : Driver) : Driver :=
  let pins := pins % 256
  let d := d.store hw.analogOutAt pins
  let d := makeWord hw hw.spiOutAt (AD5592_DAC_PIN_SELECT ||| pins) d
  let d := bcm2835_spi_transfern hw hw.spiOutAt d
  bcm2835_delay SHORT_DELAY d

/-- Set pins to analog inputs. -/
def setAsADC (hw : Platform) (pins : Nat) (d : Driver) : Driver :=
  let pins := pins % 256
  let d := d.store hw.analogInAt pins
  let d := makeWord hw hw.spiOutAt (AD5592_ADC_PIN_SELECT ||| pins) d
  let d := bcm2835_spi_transfern hw hw.spiOutAt d
  bcm2835_delay SHORT_DELAY d

/-- SPI communications: send a command, capture the response in `spiIn`. -/
def spiComs (hw : Platform) (command : Nat) (d : Driver) : Driver :=
  let d := makeWord hw hw.spiOutAt command d
  let d := clearBuffer hw hw.spiInAt d
  bcm2835_spi_transfernb hw hw.spiOutAt hw.spiInAt d

/-- Set the digital outputs. -/
def setDigitalOut (hw : Platform) (pins states : Nat) (d : Driver) : Driver :=
  let pins := pins % 256
  let states := states % 256
  let d := if !(pins == d.digitalOutPins hw) then setAsDigitalOut hw (pins ||| d.digitalOutPins hw) d else d
  spiComs hw (AD5592_GPIO_WRITE_DATA ||| states) d

/-- Get the digital input states. -/
def getDigitalIn (hw : Platform) (pins : Nat) (d : Driver) : Driver × Nat :=
  let pins := pins % 256
  let d := if !(pins == d.digitalInPins hw) then setAsDigitalIn hw (pins ||| d.digitalInPins hw) d else d
  let d := spiComs hw (AD5592_GPIO_READ_INPUT ||| pins) d
  let d := spiComs hw AD5592_NOP d
  (d, d.load (hw.spiInAt + 1) % 256)

/-- Set an analog output value. -/
def setAnalogOut (hw : Platform) (pin milivolts : Nat) (d : Driver) : Driver :=
  let pin := pin % 256
  let milivolts := milivolts % 65536
  let d := if (d.analogOutPins hw >>> pin) &&& 0x1 = 0 then setAsDAC hw (d.analogOutPins hw ||| (0x1 <<< pin)) d else d
  spiComs hw (AD5592_DAC_WRITE_MASK ||| ((pin <<< 12) &&& AD5592_DAC_ADDRESS_MASK) ||| a2d milivolts) d

/-- Get an analog input value. -/
def getAnalogIn (hw : Platform) (pin : Nat) (d : Driver) : Driver × Nat :=
  let pin := pin % 256
  let d := if (d.analogInPins hw >>> pin) &&& 0x1 = 0 then setAsADC hw (d.analogInPins hw ||| (0x1 <<< pin)) d else d
  let d := spiComs hw (AD5592_ADC_READ ||| (0x1 <<< pin)) d
  let d := spiComs hw AD5592_NOP d
  let d := spiComs hw AD5592_NOP d
  let result := (((d.load (hw.spiInAt + 0) <<< 8) &&& 0x0F00) ||| (d.load (hw.spiInAt + 1) &&& 0xFF)) % 65536
  (d, d2a result)

/-! ## Layouts -/

/-- The address `a` is among those `clearBuffer` zeroes when given the buffer at `base`. -/
@[reducible] def Platform.clears (hw : Platform) (base a : Nat) : Prop :=
  base ≤ a ∧ a < base + hw.ptrBytes

/-- The variable at address `a` is reached neither by `clearBuffer(spiOut)` nor by
`clearBuffer(spiIn)` and is not part of a transfer buffer. -/
@[reducible] def Platform.maskSafe (hw : Platform) (a : Nat) : Prop :=
  ¬ hw.clears hw.spiOutAt a ∧ ¬ hw.clears hw.spiInAt a ∧
  a ≠ hw.spiOutAt ∧ a ≠ hw.spiOutAt + 1 ∧ a ≠ hw.spiInAt ∧ a ≠ hw.spiInAt + 1

/-- A layout on which the stray stores of `clearBuffer` do no harm to the driver: the
two transfer buffers and the four masks occupy different addresses, `clearBuffer(spiIn)`
does not reach `spiOut`, and neither `clearBuffer` call reaches a tracked mask. -/
@[reducible] def Platform.Benign (hw : Platform) : Prop :=
  (¬ hw.clears hw.spiInAt hw.spiOutAt ∧ ¬ hw.clears hw.spiInAt (hw.spiOutAt + 1) ∧
    hw.spiOutAt ≠ hw.spiInAt ∧ hw.spiOutAt ≠ hw.spiInAt + 1 ∧ hw.spiOutAt + 1 ≠ hw.spiInAt) ∧
  (hw.maskSafe hw.digitalOutAt ∧ hw.maskSafe hw.digitalInAt ∧
    hw.maskSafe hw.analogOutAt ∧ hw.maskSafe hw.analogInAt) ∧
  (hw.digitalOutAt ≠ hw.digitalInAt ∧ hw.digitalOutAt ≠ hw.analogOutAt ∧
    hw.digitalOutAt ≠ hw.analogInAt ∧ hw.digitalInAt ≠ hw.analogOutAt ∧
    hw.digitalInAt ≠ hw.analogInAt ∧ hw.analogOutAt ≠ hw.analogInAt)

/-- The variables in the order of the header, `spiOut` at address 0: `spiOut` 0..1,
`spiIn` 2..3, `mV` 4..5, `result` 6..7, then the four masks at 8, 9, 10 and 11. -/
def Platform.inOrder (ptrBytes : Nat) (miso : List Event → Nat × Nat) : Platform :=
  { ptrBytes := ptrBytes, miso := miso, spiOutAt := 0, spiInAt := 2, digitalOutAt := 8,
    digitalInAt := 9, analogOutAt := 10, analogInAt := 11 }

/-- A 32-bit target (4-byte pointers, variables in the order of the header) whose slave
answers every transfer with a byte that counts the bus events and the byte `0x5A`. -/
def Platform.sample : Platform := Platform.inOrder 4 (fun bus => (0xA0 + bus.length, 0x5A))

/-- The same 32-bit target with a slave that answers every transfer with `0xFF`, `0xFF`. -/
def Platform.allOnes : Platform := Platform.inOrder 4 (fun _ => (0xFF, 0xFF))

/-- A 64-bit target: 8-byte pointers, variables in the order of the header. -/
def Platform.lp64 : Platform := Platform.inOrder 8 (fun bus => (0xA0 + bus.length, 0x5A))

/-- A 32-bit target on which `spiOut` is placed right behind `spiIn`: `spiIn` 0..1,
`spiOut` 2..3, the four masks at 8, 9, 10 and 11. -/
def Platform.outBehindIn : Platform :=
  { ptrBytes := 4, miso := fun bus => (0xA0 + bus.length, 0x5A), spiOutAt := 2, spiInAt := 0,
    digitalOutAt := 8, digitalInAt := 9, analogOutAt := 10, analogInAt := 11 }

/-! ## Observations on the bus record and arithmetic used to state the properties -/

/-- The 16-bit word carried by the bytes of a transfer, first byte most significant. -/
def wireWord (bytes : List Nat) : Nat :=
  (bytes.getD 0 0 <<< 8) ||| bytes.getD 1 0

/-- The command word of a bus event, if the event is a transfer. -/
def Event.word? : Event → Option Nat
  | Event.transfern out => some (wireWord out)
  | Event.transfernb out => some (wireWord out)
  | _ => none

/-- The command words sent so far, in order. -/
def sentWords (bus : List Event) : List Nat := bus.filterMap Event.word?

/-- The quotient `num / den` rounded to the nearest integer, a half rounded up. -/
def roundHalfUp (num den : Nat) : Nat := (2 * num + den) / (2 * den)

/-- The boolean `f` holds at every number below the bound. -/
def checkBelow (f : Nat → Bool) : Nat → Bool
  | 0 => true
  | n + 1 => f n && checkBelow f n

/-- A call of the channel selector or of the high-level pin API. -/
inductive Call where
  | selectCh (ch : Int)
  | digitalOut (pins states : Nat)
  | digitalIn (pins : Nat)
  | analogOut (pin milivolts : Nat)
  | analogIn (pin : Nat)
deriving DecidableEq

/-- The state after one call; a returned value is dropped. -/
def Call.exec (hw : Platform) : Call → Driver → Driver
  | Call.selectCh ch, d => setAD5592Ch ch d
  | Call.digitalOut pins states, d => setDigitalOut hw pins states d
  | Call.digitalIn pins, d => (getDigitalIn hw pins d).1
  | Call.analogOut pin milivolts, d => setAnalogOut hw pin milivolts d
  | Call.analogIn pin, d => (getAnalogIn hw pin d).1

/-- The state after a sequence of calls. -/
def run (hw : Platform) (calls : List Call) (d : Driver) : Driver :=
  calls.foldl (fun s c => c.exec hw s) d

/-- The chip-select line in force after the events, starting from `cur`. -/
def selectedFrom (cur : Option Nat) (bus : List Event) : Option Nat :=
  bus.foldl (fun c e => match e with
    | Event.chipSelect cs => some cs
    | _ => c) cur

/-- The chip-select line in force after the recorded events, if one was selected. -/
def selected (bus : List Event) : Option Nat := selectedFrom none bus

/-- The command words clocked out while chip select `cs` was in force, starting from `cur`. -/
def deviceWordsFrom (cs : Nat) : Option Nat → List Event → List Nat
  | _, [] => []
  | _, Event.chipSelect c :: es => deviceWordsFrom cs (some c) es
  | cur, e :: es =>
    (if cur = some cs then e.word?.toList else []) ++ deviceWordsFrom cs cur es

/-- The command words received by the device on chip select `cs`. -/
def deviceWords (cs : Nat) (bus : List Event) : List Nat := deviceWordsFrom cs none bus

/-- A call that selects channel `ch`, or a `setDigitalOut` call with a `uint8_t` mask. -/
def Call.isDigitalOutOn (ch : Int) : Call → Bool
  | Call.selectCh c => decide (c = ch)
  | Call.digitalOut pins _ => decide (pins < 256)
  | _ => false

/-- The word `w` addresses the GPIO-write-config register (bits 15:11) and its pin mask
contains every bit of `pins`. -/
def configCovers (pins w : Nat) : Bool :=
  w >>> 11 == AD5592_GPIO_WRITE_CONFIG >>> 11 && pins &&& (w % 256) == pins

/-- With chip select `cs` in force, the tracked digital-out mask is 0 or is the mask of
a GPIO-write-config word that the device on `cs` has received. -/
def ConfigSeen (hw : Platform) (cs : Nat) (d : Driver) : Prop :=
  selected d.bus = some cs ∧
    (d.digitalOutPins hw = 0 ∨ 0x4000 + d.digitalOutPins hw ∈ deviceWords cs d.bus)

/-- The number of GPIO-write-config transactions on the bus: words whose register
bits 15:11 are those of `AD5592_GPIO_WRITE_CONFIG`. -/
def writeConfigCount (bus : List Event) : Nat :=
  (sentWords bus).countP (fun w => w >>> 11 == AD5592_GPIO_WRITE_CONFIG >>> 11)

/-- The digital tolerance of the analog IO test. -/
abbrev TOLERANCE : Int := 41

/-- The analog check of `analogIOTest`:
`(targetVal[j] + TOLERANCE) > result && (targetVal[j] - TOLERANCE) < result`, where
`targetVal[j]` and `result` are `uint16_t` objects.  Both are promoted to `int` (32 bits
on the target), so the sum and the difference are signed and cannot overflow. -/
def analogIOTest_pass (target result : Nat) : Bool :=
  decide (((target % 65536 : Nat) : Int) + TOLERANCE > ((result % 65536 : Nat) : Int)) &&
    decide (((target % 65536 : Nat) : Int) - TOLERANCE < ((result % 65536 : Nat) : Int))

/-! ## Lemmas -/

theorem checkBelow_spec (f : Nat → Bool) (n : Nat) (h : checkBelow f n = true) :
    ∀ k, k < n → f k = true := by
  induction n with
  | zero => intro k hk; omega
  | succ n ih =>
    intro k hk
    simp only [checkBelow, Bool.and_eq_true] at h
    rcases Nat.lt_succ_iff_lt_or_eq.mp hk with hlt | heq
    · exact ih h.2 k hlt
    · rw [heq]; exact h.1

theorem a2d_table : checkBelow (fun mv => a2d mv == mv * 4095 / 5000) 5001 = true := by
  decide!

theorem d2a_table : checkBelow (fun c => d2a c == c * 5000 / 4095) 4096 = true := by
  decide!

/-- On 0..5000 mV the conversion is the integer part of `mV * 4095 / 5000`. -/
theorem a2d_eq_floor (mv : Nat) (h : mv ≤ 5000) : a2d mv = mv * 4095 / 5000 := by
  have := checkBelow_spec _ _ a2d_table mv (by omega)
  simpa using this

/-- On 0..4095 counts the conversion is the integer part of `count * 5000 / 4095`. -/
theorem d2a_eq_floor (c : Nat) (h : c ≤ 4095) : d2a c = c * 5000 / 4095 := by
  have := checkBelow_spec _ _ d2a_table c (by omega)
  simpa using this

/-- The literal: no binary32 number is nearer to 819/1000 than `13740540 / 2 ^ 24`. -/
theorem c819f_nearest :
    c819f = ⟨13740540, -24⟩ ∧ 2 * (13740540 * 1000 - 819 * 2 ^ 24) < 1000 ∧
      819 * 2 ^ 24 ≤ 13740540 * 1000 := by
  refine ⟨rfl, by norm_num, by norm_num⟩

theorem and_FF00_shift (x : Nat) : (x &&& 0xFF00) >>> 8 = (x >>> 8) % 256 := by
  have h1 : (0xFF00 : Nat) = (2 ^ 8 - 1) <<< 8 := by decide
  have h2 : (256 : Nat) = 2 ^ 8 := by decide
  apply Nat.eq_of_testBit_eq
  intro i
  rw [h1, h2]
  simp only [Nat.testBit_shiftRight, Nat.testBit_shiftLeft, Nat.testBit_and,
    Nat.testBit_mod_two_pow, Nat.testBit_two_pow_sub_one]
  have h3 : 8 + i - 8 = i := by omega
  have h4 : 8 + i ≥ 8 := by omega
  simp [h3, Bool.and_comm]

theorem and_FF (x : Nat) : x &&& 0xFF = x % 256 :=
  Nat.and_pow_two_sub_one_eq_mod x 8

/-! ### Loads and stores -/

theorem Driver.load_lt (d : Driver) (a : Nat) : d.load a < 256 :=
  Nat.mod_lt _ (by decide)

@[simp] theorem Driver.store_bus (d : Driver) (a v : Nat) : (d.store a v).bus = d.bus := rfl

theorem Driver.store_load (d : Driver) (a v x : Nat) :
    (d.store a v).load x = if x = a then v % 256 else d.load x := by
  unfold Driver.store Driver.load
  by_cases h : x = a <;> simp [h]

theorem range_store_bus (n b : Nat) (d : Driver) :
    ((List.range n).foldl (fun s i => s.store (b + i) 0x00) d).bus = d.bus := by
  induction n with
  | zero => rfl
  | succ n ih => rw [List.range_succ, List.foldl_append]; simpa using ih

theorem range_store_load (n b : Nat) (d : Driver) (x : Nat) :
    ((List.range n).foldl (fun s i => s.store (b + i) 0x00) d).load x =
      if b ≤ x ∧ x < b + n then 0 else d.load x := by
  induction n with
  | zero =>
    have h : ¬ (b ≤ x ∧ x < b + 0) := by omega
    rw [if_neg h]
    rfl
  | succ n ih =>
    rw [List.range_succ, List.foldl_append]
    simp only [List.foldl_cons, List.foldl_nil]
    rw [Driver.store_load, ih]
    by_cases h1 : x = b + n
    · have h2 : b ≤ x ∧ x < b + (n + 1) := by omega
      simp [h1, h2]
    · by_cases h2 : b ≤ x ∧ x < b + n
      · have h3 : b ≤ x ∧ x < b + (n + 1) := by omega
        simp [h1, h2, h3]
      · have h3 : ¬ (b ≤ x ∧ x < b + (n + 1)) := by omega
        simp [h1, h2, h3]

@[simp] theorem clearBuffer_bus (hw : Platform) (b : Nat) (d : Driver) :
    (clearBuffer hw b d).bus = d.bus :=
  range_store_bus hw.ptrBytes b d

theorem clearBuffer_load (hw : Platform) (b : Nat) (d : Driver) (x : Nat) :
    (clearBuffer hw b d).load x = if hw.clears b x then 0 else d.load x :=
  range_store_load hw.ptrBytes b d x

@[simp] theorem makeWord_bus (hw : Platform) (b w : Nat) (d : Driver) :
    (makeWord hw b w d).bus = d.bus := by
  simp [makeWord]

theorem makeWord_load (hw : Platform) (b w : Nat) (d : Driver) (x : Nat) :
    (makeWord hw b w d).load x =
      if x = b + 1 then w % 256
      else if x = b then w % 65536 / 256
      else if hw.clears b x then 0 else d.load x := by
  have e0 : ((w % 65536) &&& 0xFF00) >>> 8 % 256 = w % 65536 / 256 := by
    rw [and_FF00_shift, Nat.shiftRight_eq_div_pow]; omega
  have e1 : ((w % 65536) &&& 0xFF) % 256 = w % 256 := by
    rw [and_FF]; omega
  simp only [makeWord, Driver.store_load, clearBuffer_load, e0, e1, Nat.add_zero]

theorem transfern_bus (hw : Platform) (buf : Nat) (d : Driver) :
    (bcm2835_spi_transfern hw buf d).bus =
      d.bus ++ [Event.transfern [d.load buf, d.load (buf + 1)]] := rfl

theorem transfern_load (hw : Platform) (buf : Nat) (d : Driver) (x : Nat) :
    (bcm2835_spi_transfern hw buf d).load x =
      if x = buf + 1 then (hw.miso (bcm2835_spi_transfern hw buf d).bus).2 % 256
      else if x = buf then (hw.miso (bcm2835_spi_transfern hw buf d).bus).1 % 256
      else d.load x := by
  simp only [bcm2835_spi_transfern, Driver.store_load, Driver.store_bus]
  rfl

theorem transfernb_bus (hw : Platform) (tbuf rbuf : Nat) (d : Driver) :
    (bcm2835_spi_transfernb hw tbuf rbuf d).bus =
      d.bus ++ [Event.transfernb [d.load tbuf, d.load (tbuf + 1)]] := rfl

theorem transfernb_load (hw : Platform) (tbuf rbuf : Nat) (d : Driver) (x : Nat) :
    (bcm2835_spi_transfernb hw tbuf rbuf d).load x =
      if x = rbuf + 1 then (hw.miso (bcm2835_spi_transfernb hw tbuf rbuf d).bus).2 % 256
      else if x = rbuf then (hw.miso (bcm2835_spi_transfernb hw tbuf rbuf d).bus).1 % 256
      else d.load x := by
  simp only [bcm2835_spi_transfernb, Driver.store_load, Driver.store_bus]
  rfl

theorem makeWord_out (hw : Platform) (b w : Nat) (d : Driver) :
    (makeWord hw b w d).load b = w % 65536 / 256 ∧ (makeWord hw b w d).load (b + 1) = w % 256 := by
  constructor
  · rw [makeWord_load]; simp
  · rw [makeWord_load]; simp

/-! ### Command words and bus records -/

theorem lor_low (k x : Nat) (hx : x < 256) : (256 * k) ||| x = 256 * k + x := by
  have h := Nat.mul_add_lt_is_or (i := 8) (b := x) (by simpa using hx) k
  simpa using h.symm

theorem lor_cmd (c x : Nat) (hc : c % 256 = 0) (hx : x < 256) : c ||| x = c + x := by
  have h : c = 256 * (c / 256) := by omega
  have h2 := lor_low (c / 256) x hx
  rwa [← h] at h2

theorem cmd_hi (c x : Nat) (hc : c % 256 = 0) (hc2 : c < 65536) (hx : x < 256) :
    (c ||| x) % 65536 / 256 = c / 256 := by
  rw [lor_cmd c x hc hx]; omega

theorem cmd_lo (c x : Nat) (hc : c % 256 = 0) (hx : x < 256) : (c ||| x) % 256 = x := by
  rw [lor_cmd c x hc hx]; omega

theorem lor_lt_256 (a b : Nat) (ha : a < 256) (hb : b < 256) : a ||| b < 256 :=
  Nat.or_lt_two_pow (n := 8) ha hb

theorem sentWords_append (a b : List Event) : sentWords (a ++ b) = sentWords a ++ sentWords b := by
  simp [sentWords, List.filterMap_append]

theorem wireWord_pair (k x : Nat) (hx : x < 256) : wireWord [k, x] = 256 * k + x := by
  simp only [wireWord, List.getD_cons_zero, List.getD_cons_succ]
  rw [Nat.shiftLeft_eq, Nat.mul_comm, show (2 : Nat) ^ 8 = 256 from rfl, lor_low _ _ hx]

theorem a2d_le (mv : Nat) (h : mv ≤ 5000) : a2d mv ≤ 4095 := by
  rw [a2d_eq_floor mv h]; omega

theorem dac_word (pin a : Nat) (hpin : pin ≤ 7) (ha : a ≤ 4095) :
    0x8000 ||| ((pin <<< 12) &&& 0x7000) ||| a = 32768 + 4096 * pin + a ∧
    0x8000 ||| (pin <<< 12) ||| a = 32768 + 4096 * pin + a := by
  have h1 : (pin <<< 12) &&& 0x7000 = pin <<< 12 := by
    interval_cases pin <;> decide
  have h2 : 0x8000 ||| (pin <<< 12) = 2 ^ 12 * (8 + pin) := by
    interval_cases pin <;> decide
  have h3 := Nat.mul_add_lt_is_or (i := 12) (b := a) (by omega) (8 + pin)
  rw [h1, h2, ← h3]
  omega

theorem shl8_and_0F00 (b : Nat) : (b <<< 8) &&& 0x0F00 = (b &&& 0x0F) <<< 8 := by
  have h1 : (0x0F00 : Nat) = (2 ^ 4 - 1) <<< 8 := by decide
  have h2 : (0x0F : Nat) = 2 ^ 4 - 1 := by decide
  apply Nat.eq_of_testBit_eq
  intro i
  rw [h1, h2]
  simp only [Nat.testBit_shiftLeft, Nat.testBit_and, Nat.testBit_two_pow_sub_one]
  cases hi : decide (i ≥ 8) <;> simp

theorem adc_result (b0 b1 : Nat) (h1 : b1 < 256) :
    (((b0 <<< 8) &&& 0x0F00) ||| (b1 &&& 0xFF)) % 65536 = ((b0 &&& 0x0F) <<< 8) ||| b1 := by
  have e : b0 &&& 0x0F < 2 ^ 4 := Nat.and_lt_two_pow _ (by decide)
  have e1 : (b0 &&& 0x0F) <<< 8 < 2 ^ 12 := by
    rw [Nat.shiftLeft_eq]; omega
  have e2 : ((b0 &&& 0x0F) <<< 8) ||| b1 < 2 ^ 12 := Nat.or_lt_two_pow e1 (by omega)
  rw [shl8_and_0F00, and_FF, Nat.mod_eq_of_lt h1, Nat.mod_eq_of_lt (by omega)]

theorem marked_iff (m pin : Nat) : (m >>> pin) &&& 0x1 = 0 ↔ m.testBit pin = false := by
  rw [Nat.and_one_is_mod, Nat.shiftRight_eq_div_pow, Nat.testBit_to_div_mod]
  simp

theorem one_shl_lt (pin : Nat) (hpin : pin ≤ 7) : 1 <<< pin < 256 := by
  interval_cases pin <;> decide

theorem lor_one_shl_of_testBit (m pin : Nat) (h : m.testBit pin = true) :
    m ||| 1 <<< pin = m := by
  apply Nat.eq_of_testBit_eq
  intro i
  rw [Nat.testBit_or, Nat.one_shiftLeft, Nat.testBit_two_pow]
  by_cases hi : pin = i
  · subst hi; simp [h]
  · simp [hi]

theorem dac_addr (pin : Nat) (hpin : pin ≤ 7) : (pin <<< 12) &&& 0x7000 = pin <<< 12 := by
  interval_cases pin <;> decide

theorem a2d_lt (mv : Nat) : a2d mv < 65536 := by
  unfold a2d
  exact Nat.mod_lt _ (by decide)

theorem a2d_mod (mv : Nat) : a2d (mv % 65536) = a2d mv := by
  simp [a2d]

theorem dacWord_lt (pin mv : Nat) (hpin : pin ≤ 7) :
    0x8000 ||| (pin <<< 12) ||| a2d mv < 65536 := by
  have h1 : pin <<< 12 < 2 ^ 16 := by
    rw [Nat.shiftLeft_eq]; omega
  have h2 : a2d mv < 2 ^ 16 := a2d_lt mv
  exact Nat.or_lt_two_pow (Nat.or_lt_two_pow (by decide) h1) h2

theorem dac_addr_mod (pin : Nat) (h1 : 8 ≤ pin) (h2 : pin ≤ 30) :
    (pin <<< 12) &&& 0x7000 = (pin % 8) <<< 12 := by
  interval_cases pin <;> decide

theorem lor_one_shl_mod (m pin : Nat) (hm : m < 256) (h1 : 8 ≤ pin) :
    (m ||| 1 <<< pin) % 256 = m := by
  have e : 1 <<< pin = 256 * 2 ^ (pin - 8) := by
    rw [Nat.one_shiftLeft, show (256 : Nat) = 2 ^ 8 from rfl, ← Nat.pow_add]
    congr 1
    omega
  rw [Nat.lor_comm, e, lor_low _ _ hm]
  omega

theorem and_lor_self (a b : Nat) : a &&& (a ||| b) = a := by
  apply Nat.eq_of_testBit_eq
  intro i
  rw [Nat.testBit_and, Nat.testBit_or]
  cases a.testBit i <;> simp

theorem configCovers_word (pins m : Nat) (hm : m < 256) (h : pins &&& m = pins) :
    configCovers pins (0x4000 + m) = true := by
  have e1 : (0x4000 + m) >>> 11 = 8 := by
    rw [Nat.shiftRight_eq_div_pow]; omega
  have e2 : (0x4000 + m) % 256 = m := by omega
  simp only [configCovers, e1, e2, h, beq_self_eq_true, Bool.and_true]
  decide

theorem selectedFrom_append (cur : Option Nat) (a b : List Event) :
    selectedFrom cur (a ++ b) = selectedFrom (selectedFrom cur a) b := by
  simp [selectedFrom, List.foldl_append]

theorem deviceWordsFrom_append (cs : Nat) (a b : List Event) :
    ∀ cur : Option Nat, deviceWordsFrom cs cur (a ++ b) =
      deviceWordsFrom cs cur a ++ deviceWordsFrom cs (selectedFrom cur a) b := by
  induction a with
  | nil => intro cur; simp [deviceWordsFrom, selectedFrom]
  | cons e es ih =>
    intro cur
    cases e <;> simp [deviceWordsFrom, selectedFrom, ih]

theorem deviceWords_append (cs : Nat) (a b : List Event) :
    deviceWords cs (a ++ b) = deviceWords cs a ++ deviceWordsFrom cs (selected a) b :=
  deviceWordsFrom_append cs a b none

theorem selected_append (a b : List Event) :
    selected (a ++ b) = selectedFrom (selected a) b :=
  selectedFrom_append none a b

theorem adc_count_le (b0 b1 : Nat) (h1 : b1 < 256) : ((b0 &&& 0x0F) <<< 8) ||| b1 ≤ 4095 := by
  have e : b0 &&& 0x0F < 2 ^ 4 := Nat.and_lt_two_pow _ (by decide)
  have e1 : (b0 &&& 0x0F) <<< 8 < 2 ^ 12 := by
    rw [Nat.shiftLeft_eq]; omega
  have e2 : ((b0 &&& 0x0F) <<< 8) ||| b1 < 2 ^ 12 := Nat.or_lt_two_pow e1 (by omega)
  omega

/-! ### `spiComs` and the configuration calls -/

theorem spiComs_bus_gen (hw : Platform) (c : Nat) (d : Driver) :
    (spiComs hw c d).bus = d.bus ++ [Event.transfernb
      [if hw.clears hw.spiInAt hw.spiOutAt then 0 else c % 65536 / 256,
       if hw.clears hw.spiInAt (hw.spiOutAt + 1) then 0 else c % 256]] := by
  have h := makeWord_out hw hw.spiOutAt c d
  simp only [spiComs, transfernb_bus, clearBuffer_bus, makeWord_bus, clearBuffer_load, h.1, h.2]

theorem spiComs_bus_raw (hw : Platform) (hb : hw.Benign) (c : Nat) (d : Driver) :
    (spiComs hw c d).bus = d.bus ++ [Event.transfernb [c % 65536 / 256, c % 256]] := by
  rw [spiComs_bus_gen, if_neg hb.1.1, if_neg hb.1.2.1]

theorem spiComs_bus (hw : Platform) (hb : hw.Benign) (c x : Nat) (d : Driver) (hc : c % 256 = 0)
    (hc2 : c < 65536) (hx : x < 256) :
    (spiComs hw (c ||| x) d).bus = d.bus ++ [Event.transfernb [c / 256, x]] := by
  rw [spiComs_bus_raw hw hb, cmd_hi c x hc hc2 hx, cmd_lo c x hc hx]

theorem spiComs_load_safe (hw : Platform) (c : Nat) (d : Driver) (a : Nat) (ha : hw.maskSafe a) :
    (spiComs hw c d).load a = d.load a := by
  obtain ⟨h1, h2, h3, h4, h5, h6⟩ := ha
  simp only [spiComs, transfernb_load, clearBuffer_load, makeWord_load, if_neg h1, if_neg h2,
    if_neg h3, if_neg h4, if_neg h5, if_neg h6]

theorem spiComs_spiIn (hw : Platform) (c : Nat) (d : Driver) :
    (spiComs hw c d).load (hw.spiInAt + 0) = (hw.miso (spiComs hw c d).bus).1 % 256 ∧
    (spiComs hw c d).load (hw.spiInAt + 1) = (hw.miso (spiComs hw c d).bus).2 % 256 := by
  constructor
  · have h : ¬ (hw.spiInAt = hw.spiInAt + 1) := by omega
    simp only [spiComs, transfernb_load, Nat.add_zero, if_neg h, if_true]
  · simp only [spiComs, transfernb_load, if_true]

theorem config_bus (hw : Platform) (m p w : Nat) (d : Driver) :
    (bcm2835_spi_transfern hw hw.spiOutAt (makeWord hw hw.spiOutAt w (d.store m p))).bus =
      d.bus ++ [Event.transfern [w % 65536 / 256, w % 256]] := by
  have h := makeWord_out hw hw.spiOutAt w (d.store m p)
  rw [transfern_bus, h.1, h.2, makeWord_bus, Driver.store_bus]

theorem config_load (hw : Platform) (m p w : Nat) (d : Driver) (a : Nat) (ha : hw.maskSafe a) :
    (bcm2835_spi_transfern hw hw.spiOutAt (makeWord hw hw.spiOutAt w (d.store m p))).load a =
      if a = m then p % 256 else d.load a := by
  obtain ⟨h1, _, h3, h4, _, _⟩ := ha
  simp only [transfern_load, makeWord_load, Driver.store_load, if_neg h1, if_neg h3, if_neg h4]

theorem setAsDigitalOut_bus (hw : Platform) (p : Nat) (d : Driver) :
    (setAsDigitalOut hw p d).bus = d.bus ++ [Event.transfern [0x40, p % 256]] := by
  have hx : p % 256 < 256 := Nat.mod_lt _ (by decide)
  simp only [setAsDigitalOut, config_bus, cmd_hi 0x4000 _ (by decide) (by decide) hx,
    cmd_lo 0x4000 _ (by decide) hx]

theorem setAsDigitalOut_load (hw : Platform) (p : Nat) (d : Driver) (a : Nat)
    (ha : hw.maskSafe a) :
    (setAsDigitalOut hw p d).load a = if a = hw.digitalOutAt then p % 256 else d.load a := by
  simp only [setAsDigitalOut, config_load hw _ _ _ d a ha, Nat.mod_mod]

theorem setAsDigitalIn_bus (hw : Platform) (p : Nat) (d : Driver) :
    (setAsDigitalIn hw p d).bus = d.bus ++ [Event.transfern [0x50, p % 256]] := by
  have hx : p % 256 < 256 := Nat.mod_lt _ (by decide)
  simp only [setAsDigitalIn, config_bus, cmd_hi 0x5000 _ (by decide) (by decide) hx,
    cmd_lo 0x5000 _ (by decide) hx]

theorem setAsDigitalIn_load (hw : Platform) (p : Nat) (d : Driver) (a : Nat)
    (ha : hw.maskSafe a) :
    (setAsDigitalIn hw p d).load a = if a = hw.digitalInAt then p % 256 else d.load a := by
  simp only [setAsDigitalIn, config_load hw _ _ _ d a ha, Nat.mod_mod]

theorem setAsDAC_bus (hw : Platform) (p : Nat) (d : Driver) :
    (setAsDAC hw p d).bus =
      d.bus ++ [Event.transfern [0x28, p % 256], Event.delay SHORT_DELAY] := by
  have hx : p % 256 < 256 := Nat.mod_lt _ (by decide)
  simp only [setAsDAC, bcm2835_delay, config_bus, cmd_hi 0x2800 _ (by decide) (by decide) hx,
    cmd_lo 0x2800 _ (by decide) hx, List.append_assoc, List.singleton_append]

theorem setAsDAC_load (hw : Platform) (p : Nat) (d : Driver) (a : Nat) (ha : hw.maskSafe a) :
    (setAsDAC hw p d).load a = if a = hw.analogOutAt then p % 256 else d.load a := by
  have h := config_load hw hw.analogOutAt (p % 256) (AD5592_DAC_PIN_SELECT ||| p % 256) d a ha
  rw [Nat.mod_mod] at h
  rw [← h]
  rfl

theorem setAsADC_bus (hw : Platform) (p : Nat) (d : Driver) :
    (setAsADC hw p d).bus =
      d.bus ++ [Event.transfern [0x20, p % 256], Event.delay SHORT_DELAY] := by
  have hx : p % 256 < 256 := Nat.mod_lt _ (by decide)
  simp only [setAsADC, bcm2835_delay, config_bus, cmd_hi 0x2000 _ (by decide) (by decide) hx,
    cmd_lo 0x2000 _ (by decide) hx, List.append_assoc, List.singleton_append]

theorem sentWords_spiComs (hw : Platform) (hb : hw.Benign) (c : Nat) (d : Driver) :
    sentWords (spiComs hw c d).bus = sentWords d.bus ++ [c % 65536] := by
  have h : c % 256 < 256 := Nat.mod_lt _ (by decide)
  rw [spiComs_bus_raw hw hb, sentWords_append]
  simp only [sentWords, List.filterMap_cons, Event.word?, List.filterMap_nil, wireWord_pair _ _ h]
  congr 2
  omega

theorem spiComs_digitalOutPins (hw : Platform) (hb : hw.Benign) (c : Nat) (d : Driver) :
    (spiComs hw c d).digitalOutPins hw = d.digitalOutPins hw :=
  spiComs_load_safe hw c d _ hb.2.1.1

theorem spiComs_digitalInPins (hw : Platform) (hb : hw.Benign) (c : Nat) (d : Driver) :
    (spiComs hw c d).digitalInPins hw = d.digitalInPins hw :=
  spiComs_load_safe hw c d _ hb.2.1.2.1

theorem spiComs_analogOutPins (hw : Platform) (hb : hw.Benign) (c : Nat) (d : Driver) :
    (spiComs hw c d).analogOutPins hw = d.analogOutPins hw :=
  spiComs_load_safe hw c d _ hb.2.1.2.2.1

theorem spiComs_analogInPins (hw : Platform) (hb : hw.Benign) (c : Nat) (d : Driver) :
    (spiComs hw c d).analogInPins hw = d.analogInPins hw :=
  spiComs_load_safe hw c d _ hb.2.1.2.2.2

theorem setDigitalOut_eq (hw : Platform) (pins states : Nat) (d : Driver) :
    setDigitalOut hw pins states d =
      spiComs hw (0x4800 ||| states % 256)
        (if pins % 256 = d.digitalOutPins hw then d
          else setAsDigitalOut hw (pins % 256 ||| d.digitalOutPins hw) d) := by
  simp only [setDigitalOut]
  by_cases h : pins % 256 = d.digitalOutPins hw <;> simp [h]

theorem setDigitalOut_unfold (hw : Platform) (pins states : Nat) (d : Driver)
    (hp : pins < 256) (hs : states < 256) :
    setDigitalOut hw pins states d =
      spiComs hw (0x4800 ||| states)
        (if pins = d.digitalOutPins hw then d
          else setAsDigitalOut hw (pins ||| d.digitalOutPins hw) d) := by
  rw [setDigitalOut_eq, Nat.mod_eq_of_lt hp, Nat.mod_eq_of_lt hs]

theorem setDigitalOut_load (hw : Platform) (pins states : Nat) (d : Driver) (a : Nat)
    (ha : hw.maskSafe a) :
    (setDigitalOut hw pins states d).load a =
      if a = hw.digitalOutAt then d.digitalOutPins hw ||| pins % 256 else d.load a := by
  have hu : pins % 256 ||| d.digitalOutPins hw < 256 :=
    lor_lt_256 _ _ (Nat.mod_lt pins (by decide : 0 < 256)) (d.load_lt hw.digitalOutAt)
  rw [setDigitalOut_eq, spiComs_load_safe _ _ _ _ ha]
  by_cases h : pins % 256 = d.digitalOutPins hw
  · rw [if_pos h, h, Nat.or_self]
    by_cases h2 : a = hw.digitalOutAt
    · rw [if_pos h2, h2]; rfl
    · rw [if_neg h2]
  · rw [if_neg h, setAsDigitalOut_load _ _ _ _ ha]
    by_cases h2 : a = hw.digitalOutAt
    · rw [if_pos h2, if_pos h2, Nat.mod_eq_of_lt hu, Nat.lor_comm]
    · rw [if_neg h2, if_neg h2]

theorem setDigitalOut_digitalOutPins (hw : Platform) (hb : hw.Benign) (pins states : Nat)
    (d : Driver) (hp : pins < 256) :
    (setDigitalOut hw pins states d).digitalOutPins hw = d.digitalOutPins hw ||| pins := by
  have h := setDigitalOut_load hw pins states d _ hb.2.1.1
  rw [if_pos rfl, Nat.mod_eq_of_lt hp] at h
  exact h

theorem setDigitalOut_bus (hw : Platform) (hb : hw.Benign) (pins states : Nat) (d : Driver)
    (hp : pins < 256) (hs : states < 256) :
    (setDigitalOut hw pins states d).bus =
      d.bus ++
        (if pins = d.digitalOutPins hw then []
          else [Event.transfern [0x40, pins ||| d.digitalOutPins hw]]) ++
        [Event.transfernb [0x48, states]] := by
  have hu : pins ||| d.digitalOutPins hw < 256 := lor_lt_256 _ _ hp (d.load_lt hw.digitalOutAt)
  rw [setDigitalOut_unfold hw pins states d hp hs,
    spiComs_bus hw hb 0x4800 states _ (by decide) (by decide) hs]
  by_cases h : pins = d.digitalOutPins hw
  · simp [h]
  · rw [if_neg h, if_neg h, setAsDigitalOut_bus]
    have e : (pins ||| d.digitalOutPins hw) % 256 = pins ||| d.digitalOutPins hw :=
      Nat.mod_eq_of_lt hu
    rw [e]

/-- On a layout where the stray stores do no harm, a `setDigitalOut` call whose mask
differs from the tracked one sends the configuration word for the union, then the data
word, and leaves the tracked mask equal to the union. -/
theorem setDigitalOut_reconfigure (hw : Platform) (hb : hw.Benign) (d : Driver)
    (pins states : Nat) (hp : pins < 256) (hs : states < 256)
    (hne : pins ≠ d.digitalOutPins hw) :
    sentWords (setDigitalOut hw pins states d).bus =
      sentWords d.bus ++ [0x4000 ||| (pins ||| d.digitalOutPins hw), 0x4800 ||| states] ∧
    (setDigitalOut hw pins states d).bus =
      d.bus ++ [Event.transfern [0x40, pins ||| d.digitalOutPins hw],
        Event.transfernb [0x48, states]] ∧
    (setDigitalOut hw pins states d).digitalOutPins hw = pins ||| d.digitalOutPins hw := by
  have hu : pins ||| d.digitalOutPins hw < 256 := lor_lt_256 _ _ hp (d.load_lt hw.digitalOutAt)
  have hbus : (setDigitalOut hw pins states d).bus =
      d.bus ++ [Event.transfern [0x40, pins ||| d.digitalOutPins hw],
        Event.transfernb [0x48, states]] := by
    rw [setDigitalOut_bus hw hb pins states d hp hs, if_neg hne]
    simp
  refine ⟨?_, hbus, ?_⟩
  · rw [hbus, sentWords_append, lor_cmd 0x4000 _ (by decide) hu, lor_cmd 0x4800 _ (by decide) hs]
    simp [sentWords, Event.word?, wireWord_pair _ _ hu, wireWord_pair _ _ hs]
  · rw [setDigitalOut_digitalOutPins hw hb pins states d hp, Nat.lor_comm]

/-- On a layout where the stray stores do no harm, the tracked digital-out mask after a
sequence of `setDigitalOut` calls, each given as `(pins, states)`, is the union of the
masks with the mask before. -/
theorem run_setDigitalOut_mask (hw : Platform) (hb : hw.Benign) (calls : List (Nat × Nat)) :
    ∀ d : Driver, (∀ c ∈ calls, c.1 < 256) →
      (calls.foldl (fun s c => setDigitalOut hw c.1 c.2 s) d).digitalOutPins hw =
        calls.foldl (fun m c => m ||| c.1) (d.digitalOutPins hw) := by
  induction calls with
  | nil => intro d _; rfl
  | cons c cs ih =>
    intro d hc
    have hc1 : c.1 < 256 := hc c (List.mem_cons_self _ _)
    simp only [List.foldl_cons]
    rw [ih _ (fun x hx => hc x (List.mem_cons_of_mem _ hx)),
      setDigitalOut_digitalOutPins hw hb c.1 c.2 d hc1]

theorem getDigitalIn_eq (hw : Platform) (pins : Nat) (d : Driver) :
    (getDigitalIn hw pins d).1 =
      spiComs hw 0x0000 (spiComs hw (0x5400 ||| pins % 256)
        (if pins % 256 = d.digitalInPins hw then d
          else setAsDigitalIn hw (pins % 256 ||| d.digitalInPins hw) d)) := by
  simp only [getDigitalIn]
  by_cases h : pins % 256 = d.digitalInPins hw <;> simp [h]

theorem getDigitalIn_result (hw : Platform) (pins : Nat) (d : Driver) :
    (getDigitalIn hw pins d).2 = (hw.miso (getDigitalIn hw pins d).1.bus).2 % 256 := by
  simp only [getDigitalIn]
  rw [(spiComs_spiIn hw _ _).2, Nat.mod_mod]

theorem getDigitalIn_load (hw : Platform) (pins : Nat) (d : Driver) (a : Nat)
    (ha : hw.maskSafe a) :
    (getDigitalIn hw pins d).1.load a =
      if a = hw.digitalInAt then d.digitalInPins hw ||| pins % 256 else d.load a := by
  have hu : pins % 256 ||| d.digitalInPins hw < 256 :=
    lor_lt_256 _ _ (Nat.mod_lt pins (by decide : 0 < 256)) (d.load_lt hw.digitalInAt)
  rw [getDigitalIn_eq, spiComs_load_safe _ _ _ _ ha, spiComs_load_safe _ _ _ _ ha]
  by_cases h : pins % 256 = d.digitalInPins hw
  · rw [if_pos h, h, Nat.or_self]
    by_cases h2 : a = hw.digitalInAt
    · rw [if_pos h2, h2]; rfl
    · rw [if_neg h2]
  · rw [if_neg h, setAsDigitalIn_load _ _ _ _ ha]
    by_cases h2 : a = hw.digitalInAt
    · rw [if_pos h2, if_pos h2, Nat.mod_eq_of_lt hu, Nat.lor_comm]
    · rw [if_neg h2, if_neg h2]

theorem getDigitalIn_digitalInPins (hw : Platform) (hb : hw.Benign) (pins : Nat) (d : Driver)
    (hp : pins < 256) :
    (getDigitalIn hw pins d).1.digitalInPins hw = d.digitalInPins hw ||| pins := by
  have h := getDigitalIn_load hw pins d _ hb.2.1.2.1
  rw [if_pos rfl, Nat.mod_eq_of_lt hp] at h
  exact h

theorem getDigitalIn_bus (hw : Platform) (hb : hw.Benign) (pins : Nat) (d : Driver)
    (hp : pins < 256) :
    (getDigitalIn hw pins d).1.bus =
      d.bus ++
        (if pins = d.digitalInPins hw then []
          else [Event.transfern [0x50, pins ||| d.digitalInPins hw]]) ++
        [Event.transfernb [0x54, pins], Event.transfernb [0x00, 0x00]] := by
  have hu : pins ||| d.digitalInPins hw < 256 := lor_lt_256 _ _ hp (d.load_lt hw.digitalInAt)
  rw [getDigitalIn_eq, Nat.mod_eq_of_lt hp, spiComs_bus_raw hw hb,
    spiComs_bus hw hb 0x5400 pins _ (by decide) (by decide) hp]
  by_cases h : pins = d.digitalInPins hw
  · simp [h]
  · rw [if_neg h, if_neg h, setAsDigitalIn_bus]
    have e : (pins ||| d.digitalInPins hw) % 256 = pins ||| d.digitalInPins hw :=
      Nat.mod_eq_of_lt hu
    rw [e]
    simp

theorem lor_one_shl_mod_of_testBit (m pin : Nat) (hm : m < 256) (h : m.testBit pin = true) :
    (m ||| 1 <<< pin) % 256 = m := by
  rw [lor_one_shl_of_testBit _ _ h, Nat.mod_eq_of_lt hm]

theorem setAnalogOut_eq (hw : Platform) (pin mv : Nat) (d : Driver) :
    setAnalogOut hw pin mv d =
      spiComs hw (0x8000 ||| (((pin % 256) <<< 12) &&& 0x7000) ||| a2d mv)
        (if (d.analogOutPins hw).testBit (pin % 256) = true then d
          else setAsDAC hw (d.analogOutPins hw ||| 1 <<< (pin % 256)) d) := by
  simp only [setAnalogOut, a2d_mod, marked_iff]
  by_cases h : (d.analogOutPins hw).testBit (pin % 256) = true
  · simp [h]
  · simp [h]

theorem setAnalogOut_unfold (hw : Platform) (pin mv : Nat) (d : Driver) (hpin : pin ≤ 7) :
    setAnalogOut hw pin mv d =
      spiComs hw (0x8000 ||| (pin <<< 12) ||| a2d mv)
        (if (d.analogOutPins hw).testBit pin = true then d
          else setAsDAC hw (d.analogOutPins hw ||| 1 <<< pin) d) := by
  have hp : pin % 256 = pin := Nat.mod_eq_of_lt (by omega)
  rw [setAnalogOut_eq, hp, dac_addr pin hpin]

theorem setAnalogOut_load (hw : Platform) (pin mv : Nat) (d : Driver) (a : Nat)
    (ha : hw.maskSafe a) :
    (setAnalogOut hw pin mv d).load a =
      if a = hw.analogOutAt then (d.analogOutPins hw ||| 1 <<< (pin % 256)) % 256
      else d.load a := by
  rw [setAnalogOut_eq, spiComs_load_safe _ _ _ _ ha]
  by_cases h : (d.analogOutPins hw).testBit (pin % 256) = true
  · rw [if_pos h, lor_one_shl_mod_of_testBit (d.analogOutPins hw) _ (d.load_lt hw.analogOutAt) h]
    by_cases h2 : a = hw.analogOutAt
    · rw [if_pos h2, h2]; rfl
    · rw [if_neg h2]
  · rw [if_neg h, setAsDAC_load _ _ _ _ ha]

theorem setAnalogOut_frame (hw : Platform) (hb : hw.Benign) (pin mv : Nat) (d : Driver) :
    (setAnalogOut hw pin mv d).digitalOutPins hw = d.digitalOutPins hw ∧
    (setAnalogOut hw pin mv d).digitalInPins hw = d.digitalInPins hw ∧
    (setAnalogOut hw pin mv d).analogInPins hw = d.analogInPins hw := by
  obtain ⟨_, ⟨h1, h2, _, h4⟩, ⟨_, n2, _, n4, _, n6⟩⟩ := hb
  refine ⟨?_, ?_, ?_⟩
  · have h := setAnalogOut_load hw pin mv d _ h1
    rwa [if_neg n2] at h
  · have h := setAnalogOut_load hw pin mv d _ h2
    rwa [if_neg n4] at h
  · have h := setAnalogOut_load hw pin mv d _ h4
    rwa [if_neg (Ne.symm n6)] at h

theorem setAnalogOut_bus (hw : Platform) (hb : hw.Benign) (pin mv : Nat) (d : Driver)
    (hpin : pin ≤ 7) :
    (setAnalogOut hw pin mv d).bus =
      d.bus ++
        (if (d.analogOutPins hw).testBit pin = true then []
          else [Event.transfern [0x28, d.analogOutPins hw ||| 1 <<< pin],
            Event.delay SHORT_DELAY]) ++
        [Event.transfernb [(0x8000 ||| (pin <<< 12) ||| a2d mv) / 256,
          (0x8000 ||| (pin <<< 12) ||| a2d mv) % 256]] := by
  have hu : d.analogOutPins hw ||| 1 <<< pin < 256 :=
    lor_lt_256 _ _ (d.load_lt hw.analogOutAt) (one_shl_lt pin hpin)
  rw [setAnalogOut_unfold hw pin mv d hpin, spiComs_bus_raw hw hb,
    Nat.mod_eq_of_lt (dacWord_lt pin mv hpin)]
  by_cases h : (d.analogOutPins hw).testBit pin = true
  · simp [h]
  · simp [h, setAsDAC_bus, Nat.mod_eq_of_lt hu]

theorem setAnalogOut_last_word (hw : Platform) (hb : hw.Benign) (d : Driver) (pin mv : Nat) :
    (sentWords (setAnalogOut hw pin mv d).bus).getLast? =
      some ((0x8000 ||| (((pin % 256) <<< 12) &&& 0x7000) ||| a2d mv) % 65536) := by
  rw [setAnalogOut_eq, sentWords_spiComs hw hb, List.getLast?_append]
  simp

theorem getAnalogIn_eq (hw : Platform) (pin : Nat) (d : Driver) :
    (getAnalogIn hw pin d).1 =
      spiComs hw 0x0000 (spiComs hw 0x0000 (spiComs hw (0x1000 ||| 1 <<< (pin % 256))
        (if (d.analogInPins hw).testBit (pin % 256) = true then d
          else setAsADC hw (d.analogInPins hw ||| 1 <<< (pin % 256)) d))) := by
  simp only [getAnalogIn, marked_iff]
  by_cases h : (d.analogInPins hw).testBit (pin % 256) = true
  · simp [h]
  · simp [h]

theorem getAnalogIn_unfold (hw : Platform) (pin : Nat) (d : Driver) (hpin : pin ≤ 7) :
    (getAnalogIn hw pin d).1 =
      spiComs hw 0x0000 (spiComs hw 0x0000 (spiComs hw (0x1000 ||| 1 <<< pin)
        (if (d.analogInPins hw).testBit pin = true then d
          else setAsADC hw (d.analogInPins hw ||| 1 <<< pin) d))) := by
  have hp : pin % 256 = pin := Nat.mod_eq_of_lt (by omega)
  rw [getAnalogIn_eq, hp]

theorem getAnalogIn_result (hw : Platform) (pin : Nat) (d : Driver) :
    (getAnalogIn hw pin d).2 =
      d2a ((((hw.miso (getAnalogIn hw pin d).1.bus).1 % 256 &&& 0x0F) <<< 8) |||
        (hw.miso (getAnalogIn hw pin d).1.bus).2 % 256) := by
  simp only [getAnalogIn]
  rw [(spiComs_spiIn hw _ _).1, (spiComs_spiIn hw _ _).2,
    adc_result _ _ (Nat.mod_lt _ (by decide))]

theorem getAnalogIn_bus (hw : Platform) (hb : hw.Benign) (pin : Nat) (d : Driver)
    (hpin : pin ≤ 7) :
    (getAnalogIn hw pin d).1.bus =
      d.bus ++
        (if (d.analogInPins hw).testBit pin = true then []
          else [Event.transfern [0x20, d.analogInPins hw ||| 1 <<< pin],
            Event.delay SHORT_DELAY]) ++
        [Event.transfernb [0x10, 1 <<< pin], Event.transfernb [0x00, 0x00],
          Event.transfernb [0x00, 0x00]] := by
  have hu : d.analogInPins hw ||| 1 <<< pin < 256 :=
    lor_lt_256 _ _ (d.load_lt hw.analogInAt) (one_shl_lt pin hpin)
  have hx := one_shl_lt pin hpin
  rw [getAnalogIn_unfold hw pin d hpin, spiComs_bus_raw hw hb, spiComs_bus_raw hw hb,
    spiComs_bus hw hb 0x1000 _ _ (by decide) (by decide) hx]
  by_cases h : (d.analogInPins hw).testBit pin = true
  · simp [h]
  · simp [h, setAsADC_bus, Nat.mod_eq_of_lt hu]

/-! ### Chip select and the configuration a device has seen -/

theorem setAD5592Ch_bus (ch : Int) (d : Driver) (hch : ch = 0 ∨ ch = 1) :
    (setAD5592Ch ch d).bus =
      d.bus ++ [Event.chipSelect ch.toNat, Event.setChipSelectPolarity ch.toNat LOW] := by
  rcases hch with h | h <;> subst h <;>
    simp [setAD5592Ch, bcm2835_spi_chipSelect, bcm2835_spi_setChipSelectPolarity]

theorem setAD5592Ch_load (ch : Int) (d : Driver) (a : Nat) :
    (setAD5592Ch ch d).load a = d.load a := by
  unfold setAD5592Ch
  split
  · rfl
  · split <;> rfl

theorem setDigitalOut_states_mod (hw : Platform) (pins states : Nat) (d : Driver) :
    setDigitalOut hw pins states d = setDigitalOut hw pins (states % 256) d := by
  simp [setDigitalOut]

theorem ConfigSeen_select (hw : Platform) (ch : Int) (hch : ch = 0 ∨ ch = 1) :
    ConfigSeen hw ch.toNat (setAD5592Ch ch Driver.init) := by
  rcases hch with h | h <;> subst h <;> exact ⟨by decide, Or.inl rfl⟩

theorem ConfigSeen_reselect (hw : Platform) (ch : Int) (hch : ch = 0 ∨ ch = 1) (d : Driver)
    (h : ConfigSeen hw ch.toNat d) : ConfigSeen hw ch.toNat (setAD5592Ch ch d) := by
  obtain ⟨hsel, hcfg⟩ := h
  have hm : (setAD5592Ch ch d).digitalOutPins hw = d.digitalOutPins hw :=
    setAD5592Ch_load ch d _
  refine ⟨?_, ?_⟩
  · rw [setAD5592Ch_bus ch d hch, selected_append]
    simp [selectedFrom]
  · rw [hm, setAD5592Ch_bus ch d hch, deviceWords_append, hsel]
    rcases hcfg with h0 | hmem
    · exact Or.inl h0
    · exact Or.inr (List.mem_append_left _ hmem)

theorem deviceWords_setDigitalOut (hw : Platform) (hb : hw.Benign) (cs pins states : Nat)
    (d : Driver) (hsel : selected d.bus = some cs) (hp : pins < 256) :
    deviceWords cs (setDigitalOut hw pins states d).bus =
      (deviceWords cs d.bus ++
        (if pins = d.digitalOutPins hw then []
          else [0x4000 + (pins ||| d.digitalOutPins hw)])) ++
        [0x4800 + states % 256] := by
  have hs : states % 256 < 256 := Nat.mod_lt _ (by decide)
  have hu : pins ||| d.digitalOutPins hw < 256 := lor_lt_256 _ _ hp (d.load_lt hw.digitalOutAt)
  rw [setDigitalOut_states_mod, setDigitalOut_bus hw hb pins _ d hp hs, List.append_assoc,
    deviceWords_append, hsel]
  by_cases h : pins = d.digitalOutPins hw
  · simp [h, deviceWordsFrom, Event.word?, wireWord_pair _ _ hs]
  · simp [h, deviceWordsFrom, Event.word?, wireWord_pair _ _ hs, wireWord_pair _ _ hu]

theorem selected_setDigitalOut (hw : Platform) (hb : hw.Benign) (pins states : Nat)
    (d : Driver) (hp : pins < 256) :
    selected (setDigitalOut hw pins states d).bus = selected d.bus := by
  have hs : states % 256 < 256 := Nat.mod_lt _ (by decide)
  rw [setDigitalOut_states_mod, setDigitalOut_bus hw hb pins _ d hp hs, List.append_assoc,
    selected_append]
  by_cases h : pins = d.digitalOutPins hw <;> simp [h, selectedFrom]

theorem ConfigSeen_setDigitalOut (hw : Platform) (hb : hw.Benign) (cs pins states : Nat)
    (d : Driver) (h : ConfigSeen hw cs d) (hp : pins < 256) :
    ConfigSeen hw cs (setDigitalOut hw pins states d) := by
  obtain ⟨hsel, hcfg⟩ := h
  refine ⟨?_, ?_⟩
  · rw [selected_setDigitalOut hw hb pins states d hp, hsel]
  · rw [deviceWords_setDigitalOut hw hb cs pins states d hsel hp,
      setDigitalOut_digitalOutPins hw hb pins states d hp]
    by_cases hq : pins = d.digitalOutPins hw
    · rcases hcfg with h0 | hmem
      · left; rw [hq, Nat.or_self]; exact h0
      · right
        rw [← hq, Nat.or_self, hq]
        simp [hmem]
    · right
      simp [hq, Nat.lor_comm]

theorem ConfigSeen_run (hw : Platform) (hb : hw.Benign) (ch : Int) (hch : ch = 0 ∨ ch = 1)
    (calls : List Call) :
    ∀ d : Driver, ConfigSeen hw ch.toNat d → (∀ c ∈ calls, c.isDigitalOutOn ch = true) →
      ConfigSeen hw ch.toNat (run hw calls d) := by
  induction calls with
  | nil => intro d h _; exact h
  | cons c cs ih =>
    intro d h hc
    have hc1 := hc c (List.mem_cons_self _ _)
    have hrest : ∀ x ∈ cs, x.isDigitalOutOn ch = true :=
      fun x hx => hc x (List.mem_cons_of_mem _ hx)
    show ConfigSeen hw ch.toNat (run hw cs (c.exec hw d))
    apply ih _ _ hrest
    cases c with
    | selectCh c0 =>
      have e : c0 = ch := by simpa [Call.isDigitalOutOn] using hc1
      subst e
      exact ConfigSeen_reselect hw c0 hch d h
    | digitalOut p s =>
      have e : p < 256 := by simpa [Call.isDigitalOutOn] using hc1
      exact ConfigSeen_setDigitalOut hw hb _ p s d h e
    | digitalIn p => simp [Call.isDigitalOutOn] at hc1
    | analogOut p m => simp [Call.isDigitalOutOn] at hc1
    | analogIn p => simp [Call.isDigitalOutOn] at hc1

/-! ### The tracked masks against the bus record -/

theorem sentWords_setAsDAC (hw : Platform) (p : Nat) (d : Driver) :
    sentWords (setAsDAC hw p d).bus = sentWords d.bus ++ [0x2800 ||| p % 256] := by
  have hx : p % 256 < 256 := Nat.mod_lt _ (by decide)
  rw [setAsDAC_bus, sentWords_append, lor_cmd 0x2800 _ (by decide) hx]
  simp [sentWords, Event.word?, wireWord_pair _ _ hx]

theorem sentWords_spiComs_gen (hw : Platform) (c : Nat) (d : Driver) :
    sentWords (spiComs hw c d).bus = sentWords d.bus ++
      [256 * (if hw.clears hw.spiInAt hw.spiOutAt then 0 else c % 65536 / 256) +
        (if hw.clears hw.spiInAt (hw.spiOutAt + 1) then 0 else c % 256)] := by
  have h : (if hw.clears hw.spiInAt (hw.spiOutAt + 1) then 0 else c % 256) < 256 := by
    split
    · decide
    · exact Nat.mod_lt _ (by decide)
  rw [spiComs_bus_gen, sentWords_append]
  simp only [sentWords, List.filterMap_cons, Event.word?, List.filterMap_nil, wireWord_pair _ _ h]

theorem data_word_not_config (hw : Platform) (s : Nat) (hs : s < 256) :
    (256 * (if hw.clears hw.spiInAt hw.spiOutAt then 0 else (0x4800 ||| s) % 65536 / 256) +
      (if hw.clears hw.spiInAt (hw.spiOutAt + 1) then 0 else (0x4800 ||| s) % 256)) >>> 11 ≠
      AD5592_GPIO_WRITE_CONFIG >>> 11 := by
  have e : AD5592_GPIO_WRITE_CONFIG >>> 11 = 8 := by decide
  rw [cmd_hi 0x4800 s (by decide) (by decide) hs, cmd_lo 0x4800 s (by decide) hs, e,
    Nat.shiftRight_eq_div_pow]
  split <;> split <;> omega

theorem dac_word_2_6000 :
    (0x8000 ||| (((2 % 256) <<< 12) &&& 0x7000) ||| a2d 6000) % 65536 / 256 = 0xB3 ∧
    (0x8000 ||| (((2 % 256) <<< 12) &&& 0x7000) ||| a2d 6000) % 256 = 0x32 := by
  decide

/-! ## The claims -/

/-- C1, the code at a failing input: with 8-byte pointers and the variables placed in
the order of the header, `setDigitalOut 0x01 0x01` from the initial state sends the
configuration word `0x4001` and the data word `0x4801`; `setAsDigitalOut` has set the
tracked digital-out mask to `0x01`, but the stores that `clearBuffer` makes past the end
of `spiIn` inside `spiComs` zero it, so the mask is 0 afterwards and not `pins | cur`.
With 4-byte pointers and the same order the mask is `0x01` after the same call. -/
theorem setDigitalOut_union_zeroed :
    sentWords (setDigitalOut Platform.lp64 0x01 0x01 Driver.init).bus = [0x4001, 0x4801] ∧
    (setAsDigitalOut Platform.lp64 (0x01 ||| Driver.init.digitalOutPins Platform.lp64)
      Driver.init).digitalOutPins Platform.lp64 = 0x01 ∧
    (setDigitalOut Platform.lp64 0x01 0x01 Driver.init).digitalOutPins Platform.lp64 = 0 ∧
    (setDigitalOut Platform.lp64 0x01 0x01 Driver.init).digitalOutPins Platform.lp64 ≠
      0x01 ||| Driver.init.digitalOutPins Platform.lp64 ∧
    (setDigitalOut Platform.sample 0x01 0x01 Driver.init).digitalOutPins Platform.sample =
      0x01 := by
  decide

/-- C2, the code at a failing input: with 8-byte pointers and the variables placed in
the order of the header, the calls `setDigitalOut` with masks `0x01`, `0x82`, `0x01`,
`0x10` from the initial state send a configuration word each time, with the masks
`0x01`, `0x82`, `0x01`, `0x10` and not the growing union, and leave the tracked
digital-out mask at 0, while `0x01 | 0x82 | 0x01 | 0x10` is `0x93`, the value the mask
has after the same calls with 4-byte pointers. -/
theorem setDigitalOut_sequence_zeroed :
    sentWords ([((0x01 : Nat), (0x01 : Nat)), (0x82, 0x00), (0x01, 0xFF), (0x10, 0x10)].foldl
        (fun s c => setDigitalOut Platform.lp64 c.1 c.2 s) Driver.init).bus =
      [0x4001, 0x4801, 0x4082, 0x4800, 0x4001, 0x48FF, 0x4010, 0x4810] ∧
    ([((0x01 : Nat), (0x01 : Nat)), (0x82, 0x00), (0x01, 0xFF), (0x10, 0x10)].foldl
        (fun s c => setDigitalOut Platform.lp64 c.1 c.2 s) Driver.init).digitalOutPins
      Platform.lp64 = 0 ∧
    ([((0x01 : Nat), (0x01 : Nat)), (0x82, 0x00), (0x01, 0xFF), (0x10, 0x10)].map
        Prod.fst).foldl (fun m p => m ||| p) 0 = 0x93 ∧
    ([((0x01 : Nat), (0x01 : Nat)), (0x82, 0x00), (0x01, 0xFF), (0x10, 0x10)].foldl
        (fun s c => setDigitalOut Platform.sample c.1 c.2 s) Driver.init).digitalOutPins
      Platform.sample = 0x93 := by
  decide

/-- C3, the code at a failing input: with `spiOut` placed right behind `spiIn`,
`setDigitalOut 0xFF 0xFF` from the initial state puts the bytes `[0x40, 0xFF]` and then
the bytes `[0x00, 0x00]` on the bus: the stores that `clearBuffer(spiIn)` makes past the
end of `spiIn` zero the data word `0x48FF` that `makeWord` has just placed in `spiOut`.
With `spiOut` in front of `spiIn` the second transfer carries `[0x48, 0xFF]`. -/
theorem setDigitalOut_data_word_zeroed :
    (setDigitalOut Platform.outBehindIn 0xFF 0xFF Driver.init).bus =
      [Event.transfern [0x40, 0xFF], Event.transfernb [0x00, 0x00]] ∧
    sentWords (setDigitalOut Platform.outBehindIn 0xFF 0xFF Driver.init).bus =
      [0x40FF, 0x0000] ∧
    (setDigitalOut Platform.outBehindIn 0xFF 0xFF Driver.init).bus ≠
      [Event.transfern [0x40, 0xFF], Event.transfernb [0x48, 0xFF]] ∧
    (setDigitalOut Platform.sample 0xFF 0xFF Driver.init).bus =
      [Event.transfern [0x40, 0xFF], Event.transfernb [0x48, 0xFF]] := by
  decide

/-- C4, the code at a failing input: with `spiOut` placed right behind `spiIn`,
`setAnalogOut 3 2500` from the initial state sends the DAC-pin-select word `0x2808` and
then the word `0x0000`, not the DAC-write word `0x8000 | (3 << 12) | a2d(2500)`, which
is `0xB7FF`: `clearBuffer(spiIn)` in `spiComs` has zeroed `spiOut`.  With `spiOut` in
front of `spiIn` the last word sent is `0xB7FF`. -/
theorem setAnalogOut_dac_word_zeroed :
    sentWords (setAnalogOut Platform.outBehindIn 3 2500 Driver.init).bus = [0x2808, 0x0000] ∧
    (sentWords (setAnalogOut Platform.outBehindIn 3 2500 Driver.init).bus).getLast? =
      some 0x0000 ∧
    0x8000 ||| (3 <<< 12) ||| a2d 2500 = 0xB7FF ∧
    (sentWords (setAnalogOut Platform.outBehindIn 3 2500 Driver.init).bus).getLast? ≠
      some (0x8000 ||| (3 <<< 12) ||| a2d 2500) ∧
    (sentWords (setAnalogOut Platform.sample 3 2500 Driver.init).bus).getLast? =
      some (0x8000 ||| (3 <<< 12) ||| a2d 2500) := by
  decide

/-- C5, the code at a failing input: with `spiOut` placed right behind `spiIn`, after a
first `getAnalogIn 3` has marked pin 3 in the tracked analog-in mask, `getAnalogIn 3`
issues three full-duplex transactions, but all three carry the bytes `[0x00, 0x00]`: the
ADC-read select word `0x1008` is zeroed by `clearBuffer(spiIn)` before it is sent.  With
`spiOut` in front of `spiIn` the three transactions carry `0x1008`, `0x0000`, `0x0000`. -/
theorem getAnalogIn_select_word_zeroed :
    ((getAnalogIn Platform.outBehindIn 3 Driver.init).1.analogInPins
      Platform.outBehindIn).testBit 3 = true ∧
    (getAnalogIn Platform.outBehindIn 3 (getAnalogIn Platform.outBehindIn 3 Driver.init).1).1.bus =
      (getAnalogIn Platform.outBehindIn 3 Driver.init).1.bus ++
        [Event.transfernb [0x00, 0x00], Event.transfernb [0x00, 0x00],
          Event.transfernb [0x00, 0x00]] ∧
    (getAnalogIn Platform.outBehindIn 3 (getAnalogIn Platform.outBehindIn 3 Driver.init).1).1.bus ≠
      (getAnalogIn Platform.outBehindIn 3 Driver.init).1.bus ++
        [Event.transfernb [0x10, 0x08], Event.transfernb [0x00, 0x00],
          Event.transfernb [0x00, 0x00]] ∧
    (getAnalogIn Platform.sample 3 (getAnalogIn Platform.sample 3 Driver.init).1).1.bus =
      (getAnalogIn Platform.sample 3 Driver.init).1.bus ++
        [Event.transfernb [0x10, 0x08], Event.transfernb [0x00, 0x00],
          Event.transfernb [0x00, 0x00]] := by
  decide

/-- C6, the code at a failing input: with `spiOut` placed right behind `spiIn`, after a
first `getDigitalIn 0x0F` has set the tracked digital-in mask to `0x0F`,
`getDigitalIn 0x0F` issues two full-duplex transactions, but both carry the bytes
`[0x00, 0x00]`: the read-input word `0x540F` is zeroed by `clearBuffer(spiIn)` before it
is sent.  With `spiOut` in front of `spiIn` the two transactions carry `0x540F` and
`0x0000`. -/
theorem getDigitalIn_select_word_zeroed :
    (getDigitalIn Platform.outBehindIn 0x0F Driver.init).1.digitalInPins
      Platform.outBehindIn = 0x0F ∧
    (getDigitalIn Platform.outBehindIn 0x0F
        (getDigitalIn Platform.outBehindIn 0x0F Driver.init).1).1.bus =
      (getDigitalIn Platform.outBehindIn 0x0F Driver.init).1.bus ++
        [Event.transfernb [0x00, 0x00], Event.transfernb [0x00, 0x00]] ∧
    (getDigitalIn Platform.outBehindIn 0x0F
        (getDigitalIn Platform.outBehindIn 0x0F Driver.init).1).1.bus ≠
      (getDigitalIn Platform.outBehindIn 0x0F Driver.init).1.bus ++
        [Event.transfernb [0x54, 0x0F], Event.transfernb [0x00, 0x00]] ∧
    (getDigitalIn Platform.sample 0x0F
        (getDigitalIn Platform.sample 0x0F Driver.init).1).1.bus =
      (getDigitalIn Platform.sample 0x0F Driver.init).1.bus ++
        [Event.transfernb [0x54, 0x0F], Event.transfernb [0x00, 0x00]] := by
  decide

/-- C7 as stated fails: with the tracked digital-out mask at `0x01`, two successive calls
`setDigitalOut 0x02` both send a configuration word, the second one `0x4003` again; and
with the tracked digital-in mask at `0x01`, the second of two calls `getDigitalIn 0x02`
sends the read-configuration word `0x5003` again. -/
theorem repeated_call_reconfigures :
    (setDigitalOut Platform.sample 0x02 0x00
        (setDigitalOut Platform.sample 0x02 0x00
          (setDigitalOut Platform.sample 0x01 0x00 Driver.init))).bus =
      (setDigitalOut Platform.sample 0x02 0x00
          (setDigitalOut Platform.sample 0x01 0x00 Driver.init)).bus ++
        [Event.transfern [0x40, 0x03], Event.transfernb [0x48, 0x00]] ∧
    (setDigitalOut Platform.sample 0x02 0x00
        (setDigitalOut Platform.sample 0x02 0x00
          (setDigitalOut Platform.sample 0x01 0x00 Driver.init))).bus ≠
      (setDigitalOut Platform.sample 0x02 0x00
          (setDigitalOut Platform.sample 0x01 0x00 Driver.init)).bus ++
        [Event.transfernb [0x48, 0x00]] ∧
    (getDigitalIn Platform.sample 0x02
        (getDigitalIn Platform.sample 0x02
          (getDigitalIn Platform.sample 0x01 Driver.init).1).1).1.bus =
      (getDigitalIn Platform.sample 0x02
          (getDigitalIn Platform.sample 0x01 Driver.init).1).1.bus ++
        [Event.transfern [0x50, 0x03], Event.transfernb [0x54, 0x02],
          Event.transfernb [0x00, 0x00]] := by
  decide

/-- C7, amended: on a layout where the stray stores of `clearBuffer` reach neither
`spiOut` nor a tracked mask, when the tracked digital-out mask has no bit outside `pins`,
the second of two successive calls `setDigitalOut pins` issues no configuration
transaction, its only bus transaction being the GPIO-write-data word; and when the
tracked digital-in mask has no bit outside `pins`, the second of two successive calls
`getDigitalIn pins` sends no GPIO-read-config word, only the read-input word and the
no-op. -/
theorem repeated_call_no_config (hw : Platform) (d : Driver) (pins s1 s2 : Nat)
    (hb : hw.Benign) (hp : pins < 256) (hs2 : s2 < 256) :
    (d.digitalOutPins hw ||| pins = pins →
      (setDigitalOut hw pins s2 (setDigitalOut hw pins s1 d)).bus =
        (setDigitalOut hw pins s1 d).bus ++ [Event.transfernb [0x48, s2]]) ∧
    (d.digitalInPins hw ||| pins = pins →
      (getDigitalIn hw pins (getDigitalIn hw pins d).1).1.bus =
        (getDigitalIn hw pins d).1.bus ++
          [Event.transfernb [0x54, pins], Event.transfernb [0x00, 0x00]]) := by
  constructor
  · intro hsub
    have hm := setDigitalOut_digitalOutPins hw hb pins s1 d hp
    rw [hsub] at hm
    rw [setDigitalOut_bus hw hb pins s2 _ hp hs2, if_pos hm.symm]
    simp
  · intro hsub
    have hm := getDigitalIn_digitalInPins hw hb pins d hp
    rw [hsub] at hm
    rw [getDigitalIn_bus hw hb pins _ hp, if_pos hm.symm]
    simp

theorem repeated_call_no_config_witness :
    Platform.sample.Benign ∧ (0x07 : Nat) < 256 ∧ (0xFF : Nat) < 256 ∧
    (setDigitalOut Platform.sample 0x07 0xFF (setDigitalOut Platform.sample 0x07 0x55
        (setDigitalOut Platform.sample 0x01 0x00 (getDigitalIn Platform.sample 0x04 Driver.init).1))).bus =
      (setDigitalOut Platform.sample 0x07 0x55
        (setDigitalOut Platform.sample 0x01 0x00 (getDigitalIn Platform.sample 0x04 Driver.init).1)).bus ++
        [Event.transfernb [0x48, 0xFF]] ∧
    (getDigitalIn Platform.sample 0x07 (getDigitalIn Platform.sample 0x07
        (setDigitalOut Platform.sample 0x01 0x00 (getDigitalIn Platform.sample 0x04 Driver.init).1)).1).1.bus =
      (getDigitalIn Platform.sample 0x07
        (setDigitalOut Platform.sample 0x01 0x00 (getDigitalIn Platform.sample 0x04 Driver.init).1)).1.bus ++
        [Event.transfernb [0x54, 0x07], Event.transfernb [0x00, 0x00]] :=
  have h := repeated_call_no_config Platform.sample
    (setDigitalOut Platform.sample 0x01 0x00 (getDigitalIn Platform.sample 0x04 Driver.init).1)
    0x07 0x55 0xFF (by decide) (by decide) (by decide)
  ⟨by decide, by decide, by decide, h.1 (by decide), h.2 (by decide)⟩

/-- C8: for every 16-bit command word `w`, `makeWord` stores the high byte first: in
every memory and for a buffer at any address, element 0 is `(w >> 8) & 0xFF` and
element 1 is `w & 0xFF`; reading the two bytes back as `(buffer[0] << 8) | buffer[1]`
gives `w`, and two different words never give the same pair of bytes. -/
theorem makeWord_high_byte_first (hw : Platform) (d : Driver) (buf w : Nat)
    (hw16 : w < 65536) :
    (makeWord hw buf w d).load (buf + 0) = (w >>> 8) &&& 0xFF ∧
    (makeWord hw buf w d).load (buf + 1) = w &&& 0xFF ∧
    ((makeWord hw buf w d).load (buf + 0) <<< 8) ||| (makeWord hw buf w d).load (buf + 1) = w ∧
    ∀ (hw2 : Platform) (d2 : Driver) (buf2 w2 : Nat), w2 < 65536 →
      (makeWord hw2 buf2 w2 d2).load (buf2 + 0) = (makeWord hw buf w d).load (buf + 0) →
      (makeWord hw2 buf2 w2 d2).load (buf2 + 1) = (makeWord hw buf w d).load (buf + 1) →
      w2 = w := by
  have h := makeWord_out hw buf w d
  rw [Nat.mod_eq_of_lt hw16] at h
  have hlo : w % 256 < 256 := Nat.mod_lt _ (by decide)
  refine ⟨?_, ?_, ?_, ?_⟩
  · rw [Nat.add_zero, h.1, and_FF, Nat.shiftRight_eq_div_pow]
    omega
  · rw [h.2, and_FF]
  · rw [Nat.add_zero, h.1, h.2, Nat.shiftLeft_eq, Nat.mul_comm,
      show (2 : Nat) ^ 8 = 256 from rfl, lor_low _ _ hlo]
    omega
  · intro hw2 d2 buf2 w2 h2 e0 e1
    have g := makeWord_out hw2 buf2 w2 d2
    rw [Nat.mod_eq_of_lt h2] at g
    rw [Nat.add_zero, Nat.add_zero, g.1, h.1] at e0
    rw [g.2, h.2] at e1
    omega

theorem makeWord_high_byte_first_witness :
    (0x40FF : Nat) < 65536 ∧
    (makeWord Platform.sample Platform.sample.spiOutAt 0x40FF
      (spiComs Platform.sample 0x1234 Driver.init)).load (Platform.sample.spiOutAt + 0) = 0x40 ∧
    (makeWord Platform.sample Platform.sample.spiOutAt 0x40FF
      (spiComs Platform.sample 0x1234 Driver.init)).load (Platform.sample.spiOutAt + 1) = 0xFF ∧
    ((makeWord Platform.sample Platform.sample.spiOutAt 0x40FF
      (spiComs Platform.sample 0x1234 Driver.init)).load (Platform.sample.spiOutAt + 0) <<< 8) |||
      (makeWord Platform.sample Platform.sample.spiOutAt 0x40FF
        (spiComs Platform.sample 0x1234 Driver.init)).load (Platform.sample.spiOutAt + 1) =
        0x40FF :=
  have h := makeWord_high_byte_first Platform.sample
    (spiComs Platform.sample 0x1234 Driver.init) Platform.sample.spiOutAt 0x40FF (by decide)
  ⟨by decide, by decide, by decide, h.2.2.1⟩

/-- C9: for every count `c` in 0..4095, `a2d (d2a c)` differs from `c` by at most 1. -/
theorem a2d_d2a_within_one (c : Nat) (hc : c ≤ 4095) :
    a2d (d2a c) ≤ c + 1 ∧ c ≤ a2d (d2a c) + 1 := by
  have h1 := d2a_eq_floor c hc
  have h2 : d2a c ≤ 5000 := by rw [h1]; omega
  have h3 := a2d_eq_floor (d2a c) h2
  rw [h3, h1]
  omega

theorem a2d_d2a_within_one_witness :
    (1000 : Nat) ≤ 4095 ∧ a2d (d2a 1000) ≤ 1000 + 1 ∧ 1000 ≤ a2d (d2a 1000) + 1 ∧
      a2d (d2a 1000) = 999 :=
  have h := a2d_d2a_within_one 1000 (by decide)
  ⟨by decide, h.1, h.2, by decide⟩

/-- C10 as stated fails: one millivolt converts to count 0, while
`round(1 * 4095 / 5000)` is 1. -/
theorem a2d_not_rounded :
    a2d 1 = 0 ∧ roundHalfUp (1 * 4095) 5000 = 1 ∧ a2d 1 ≠ roundHalfUp (1 * 4095) 5000 := by
  decide

/-- C10, amended: for every millivolt value in 0..5000, `a2d mV` is the integer part of
`mV * 4095 / 5000` (the fraction is discarded), which is the rounded value or one less
than it. -/
theorem a2d_truncates (mV : Nat) (h : mV ≤ 5000) :
    a2d mV = mV * 4095 / 5000 ∧
    (roundHalfUp (mV * 4095) 5000 = a2d mV ∨ roundHalfUp (mV * 4095) 5000 = a2d mV + 1) := by
  have h1 := a2d_eq_floor mV h
  refine ⟨h1, ?_⟩
  rw [h1]
  unfold roundHalfUp
  omega

theorem a2d_truncates_witness :
    (2500 : Nat) ≤ 5000 ∧ a2d 2500 = 2500 * 4095 / 5000 ∧ a2d 2500 = 2047 ∧
      roundHalfUp (2500 * 4095) 5000 = a2d 2500 + 1 :=
  ⟨by decide, (a2d_truncates 2500 (by decide)).1, by decide, by decide⟩

/-- C11 as stated fails: count 3 converts to 3 mV, while `round(3 * 5000 / 4095)` is 4. -/
theorem d2a_not_rounded :
    d2a 3 = 3 ∧ roundHalfUp (3 * 5000) 4095 = 4 ∧ d2a 3 ≠ roundHalfUp (3 * 5000) 4095 := by
  decide

/-- C11, amended: for every count in 0..4095, `d2a count` is the integer part of
`count * 5000 / 4095` (the fraction is discarded), which is the rounded value or one
less than it. -/
theorem d2a_truncates (count : Nat) (h : count ≤ 4095) :
    d2a count = count * 5000 / 4095 ∧
    (roundHalfUp (count * 5000) 4095 = d2a count ∨
      roundHalfUp (count * 5000) 4095 = d2a count + 1) := by
  have h1 := d2a_eq_floor count h
  refine ⟨h1, ?_⟩
  rw [h1]
  unfold roundHalfUp
  omega

theorem d2a_truncates_witness :
    (4095 : Nat) ≤ 4095 ∧ d2a 4095 = 4095 * 5000 / 4095 ∧ d2a 4095 = 5000 ∧
      (roundHalfUp (4095 * 5000) 4095 = d2a 4095 ∨
        roundHalfUp (4095 * 5000) 4095 = d2a 4095 + 1) :=
  have h := d2a_truncates 4095 (by decide)
  ⟨by decide, h.1, by decide, h.2⟩

/-- C12 as stated fails: from the initial state `setAnalogOut 3 2500` sends the
DAC-write word `0xB7FF`, not `0xB819`. -/
theorem setAnalogOut_3_2500_not_B819 :
    (sentWords (setAnalogOut Platform.sample 3 2500 Driver.init).bus).getLast? = some 0xB7FF ∧
    (sentWords (setAnalogOut Platform.sample 3 2500 Driver.init).bus).getLast? ≠ some 0xB819 ∧
    0xB819 ∉ sentWords (setAnalogOut Platform.sample 3 2500 Driver.init).bus := by
  decide

/-- C12, amended: on a layout where the stray stores of `clearBuffer` reach neither
`spiOut` nor a tracked mask, in every state `setAnalogOut 3 2500` sends the DAC-write
command word `0xB7FF`, that is `0x8000 | (3 << 12) | a2d(2500)` with
`a2d(2500) = 2047 = 0x7FF`. -/
theorem setAnalogOut_3_2500_word (hw : Platform) (d : Driver) (hb : hw.Benign) :
    (sentWords (setAnalogOut hw 3 2500 d).bus).getLast? = some 0xB7FF ∧
    (0xB7FF : Nat) = 0x8000 ||| (3 <<< 12) ||| a2d 2500 ∧ a2d 2500 = 0x7FF := by
  refine ⟨?_, by decide, by decide⟩
  rw [setAnalogOut_last_word hw hb]
  decide

theorem setAnalogOut_3_2500_word_witness :
    Platform.sample.Benign ∧
    (sentWords (setAnalogOut Platform.sample 3 2500
      (setDigitalOut Platform.sample 0x01 0x01 Driver.init)).bus).getLast? = some 0xB7FF :=
  ⟨by decide, (setAnalogOut_3_2500_word Platform.sample
    (setDigitalOut Platform.sample 0x01 0x01 Driver.init) (by decide)).1⟩

/-- C13 as stated fails: after `setDigitalOut 0xFF 0xFF` the tracked digital-out mask
is `0xFF`, and it still is after the software-reset word `0x7DAC` went through `spiComs`. -/
theorem reset_keeps_masks :
    (setDigitalOut Platform.sample 0xFF 0xFF Driver.init).digitalOutPins Platform.sample = 0xFF ∧
    (spiComs Platform.sample AD5592_SW_RESET
      (setDigitalOut Platform.sample 0xFF 0xFF Driver.init)).digitalOutPins Platform.sample =
        0xFF ∧
    (spiComs Platform.sample AD5592_SW_RESET
      (setDigitalOut Platform.sample 0xFF 0xFF Driver.init)).digitalOutPins Platform.sample ≠
        0 := by
  decide

/-- C13, amended: on a layout where the stray stores of `clearBuffer` reach neither
`spiOut` nor a tracked mask, for every tracker state, issuing the software-reset command
word `0x7DAC` through `spiComs` puts the bytes `0x7D`, `0xAC` on the bus and leaves all
four tracked masks as they were; they are 0 afterwards only if they were 0 before. -/
theorem spiComs_reset_masks_unchanged (hw : Platform) (d : Driver) (hb : hw.Benign) :
    (spiComs hw AD5592_SW_RESET d).bus = d.bus ++ [Event.transfernb [0x7D, 0xAC]] ∧
    (spiComs hw AD5592_SW_RESET d).digitalOutPins hw = d.digitalOutPins hw ∧
    (spiComs hw AD5592_SW_RESET d).digitalInPins hw = d.digitalInPins hw ∧
    (spiComs hw AD5592_SW_RESET d).analogOutPins hw = d.analogOutPins hw ∧
    (spiComs hw AD5592_SW_RESET d).analogInPins hw = d.analogInPins hw := by
  refine ⟨?_, spiComs_digitalOutPins hw hb _ d, spiComs_digitalInPins hw hb _ d,
    spiComs_analogOutPins hw hb _ d, spiComs_analogInPins hw hb _ d⟩
  rw [spiComs_bus_raw hw hb]
  rfl

theorem spiComs_reset_masks_unchanged_witness :
    Platform.sample.Benign ∧
    (spiComs Platform.sample AD5592_SW_RESET
      (getAnalogIn Platform.sample 2 (setDigitalOut Platform.sample 0xFF 0xFF Driver.init)).1).bus =
      (getAnalogIn Platform.sample 2 (setDigitalOut Platform.sample 0xFF 0xFF Driver.init)).1.bus ++
        [Event.transfernb [0x7D, 0xAC]] ∧
    (spiComs Platform.sample AD5592_SW_RESET
      (getAnalogIn Platform.sample 2
        (setDigitalOut Platform.sample 0xFF 0xFF Driver.init)).1).digitalOutPins
      Platform.sample = 0xFF ∧
    (spiComs Platform.sample AD5592_SW_RESET
      (getAnalogIn Platform.sample 2
        (setDigitalOut Platform.sample 0xFF 0xFF Driver.init)).1).analogInPins
      Platform.sample = 0x04 :=
  have h := spiComs_reset_masks_unchanged Platform.sample
    (getAnalogIn Platform.sample 2 (setDigitalOut Platform.sample 0xFF 0xFF Driver.init)).1
    (by decide)
  ⟨by decide, h.1, h.2.1.trans (by decide), h.2.2.2.2.trans (by decide)⟩

/-- C14 as stated fails: the tracked mask is shared by both devices.  After channel 0
was configured with mask `0xFF`, `setDigitalOut 0xFF 0x00` on channel 1 sends only the
data word `0x4800`: the device on channel 1 has received no GPIO-write-config word.
Also, on one channel, `setDigitalOut 0x00 0x00` from the initial state sends the data
word and no configuration word at all. -/
theorem shared_mask_skips_config :
    selected (run Platform.sample [Call.selectCh 0, Call.digitalOut 0xFF 0xFF, Call.selectCh 1,
      Call.digitalOut 0xFF 0x00] Driver.init).bus = some 1 ∧
    deviceWords 1 (run Platform.sample [Call.selectCh 0, Call.digitalOut 0xFF 0xFF,
      Call.selectCh 1, Call.digitalOut 0xFF 0x00] Driver.init).bus = [0x4800] ∧
    (∀ w ∈ deviceWords 1 (run Platform.sample [Call.selectCh 0, Call.digitalOut 0xFF 0xFF,
      Call.selectCh 1, Call.digitalOut 0xFF 0x00] Driver.init).bus, configCovers 0xFF w = false) ∧
    deviceWords 0 (run Platform.sample [Call.selectCh 0, Call.digitalOut 0x00 0x00]
      Driver.init).bus = [0x4800] := by
  decide

/-- C14, amended: on a layout where the stray stores of `clearBuffer` reach neither
`spiOut` nor a tracked mask, in every sequence that begins with `setAD5592Ch c` (`c` = 0
or 1) and continues with `setDigitalOut` calls and further `setAD5592Ch c` calls for the
same channel only, whenever a following `setDigitalOut pins states` with a non-zero mask
sends its GPIO-write-data word, that word goes to the selected device `c`, and this
device has earlier received a GPIO-write-config word whose pin mask contains every bit
of `pins`. -/
theorem single_channel_config_before_data (hw : Platform) (ch : Int) (calls : List Call)
    (pins states : Nat) (hb : hw.Benign) (hch : ch = 0 ∨ ch = 1)
    (hcalls : ∀ c ∈ calls, c.isDigitalOutOn ch = true) (hp : pins < 256) (hnz : pins ≠ 0) :
    selected (setDigitalOut hw pins states
      (run hw calls (setAD5592Ch ch Driver.init))).bus = some ch.toNat ∧
    ∃ ws : List Nat,
      deviceWords ch.toNat (setDigitalOut hw pins states
        (run hw calls (setAD5592Ch ch Driver.init))).bus = ws ++ [0x4800 + states % 256] ∧
      ∃ w ∈ ws, configCovers pins w = true := by
  obtain ⟨hsel, hcfg⟩ :=
    ConfigSeen_run hw hb ch hch calls _ (ConfigSeen_select hw ch hch) hcalls
  refine ⟨by rw [selected_setDigitalOut hw hb pins states _ hp, hsel], _,
    deviceWords_setDigitalOut hw hb _ pins states _ hsel hp, ?_⟩
  by_cases hq : pins = (run hw calls (setAD5592Ch ch Driver.init)).digitalOutPins hw
  · rcases hcfg with h0 | hmem
    · exact absurd (hq.trans h0) hnz
    · refine ⟨_, List.mem_append_left _ hmem, ?_⟩
      have hc := configCovers_word pins pins hp (Nat.and_self pins)
      rw [← hq]
      exact hc
  · refine ⟨0x4000 + (pins ||| (run hw calls (setAD5592Ch ch Driver.init)).digitalOutPins hw),
      ?_, ?_⟩
    · simp [hq]
    · exact configCovers_word _ _ (lor_lt_256 _ _ hp (Driver.load_lt _ _)) (and_lor_self _ _)

theorem single_channel_config_before_data_witness :
    Platform.sample.Benign ∧ ((1 : Int) = 0 ∨ (1 : Int) = 1) ∧
    (∀ c ∈ [Call.digitalOut 0x0F 0x00, Call.selectCh 1, Call.digitalOut 0xF0 0xFF],
      c.isDigitalOutOn 1 = true) ∧ (0x3C : Nat) < 256 ∧ (0x3C : Nat) ≠ 0 ∧
    selected (setDigitalOut Platform.sample 0x3C 0x55
      (run Platform.sample [Call.digitalOut 0x0F 0x00, Call.selectCh 1, Call.digitalOut 0xF0 0xFF]
        (setAD5592Ch 1 Driver.init))).bus = some 1 ∧
    deviceWords 1 (setDigitalOut Platform.sample 0x3C 0x55
      (run Platform.sample [Call.digitalOut 0x0F 0x00, Call.selectCh 1, Call.digitalOut 0xF0 0xFF]
        (setAD5592Ch 1 Driver.init))).bus =
      [0x400F, 0x4800, 0x40FF, 0x48FF, 0x40FF, 0x4855] ∧
    configCovers 0x3C 0x40FF = true :=
  have h := single_channel_config_before_data Platform.sample 1
    [Call.digitalOut 0x0F 0x00, Call.selectCh 1, Call.digitalOut 0xF0 0xFF] 0x3C 0x55
    (by decide) (by decide) (by decide) (by decide) (by decide)
  ⟨by decide, by decide, by decide, by decide, by decide, h.1, by decide, by decide⟩

/-- C15, the code at a failing input: with a slave that answers `0xFF` to every byte,
`getDigitalIn 0x0F` from the initial state returns `0xFF`; bits 4..7 are set in the
result although they are not set in `pins`. -/
theorem getDigitalIn_returns_unmasked :
    (getDigitalIn Platform.allOnes 0x0F Driver.init).2 = 0xFF ∧
    (getDigitalIn Platform.allOnes 0x0F Driver.init).2 &&& (0xFF ^^^ 0x0F) = 0xF0 ∧
    (getDigitalIn Platform.allOnes 0x0F Driver.init).2 &&& (0xFF ^^^ 0x0F) ≠ 0 := by
  decide

/-- C16 as stated fails: `setAnalogOut 8 2500` from the initial state is not rejected,
it sends the DAC-pin-select word `0x2800` and the DAC-write word `0x87FF`, a write to
channel 0. -/
theorem setAnalogOut_pin8_sends :
    (setAnalogOut Platform.sample 8 2500 Driver.init).bus =
      [Event.transfern [0x28, 0x00], Event.delay 10, Event.transfernb [0x87, 0xFF]] ∧
    sentWords (setAnalogOut Platform.sample 8 2500 Driver.init).bus = [0x2800, 0x87FF] ∧
    sentWords (setAnalogOut Platform.sample 8 2500 Driver.init).bus ≠
      sentWords Driver.init.bus := by
  decide

/-- C16, amended: on a layout where the stray stores of `clearBuffer` reach neither
`spiOut` nor a tracked mask, for every pin value in 8..30 (the values outside 0..7 for
which the shift expressions of the source are defined) and every millivolts value,
`setAnalogOut` is not rejected: it leaves all four tracked masks unchanged, but it sends
the DAC-pin-select word `0x2800 | analogOutPins` and then the DAC-write word
`0x8000 | ((pin mod 8) << 12) | a2d(millivolts)`. -/
theorem setAnalogOut_out_of_range (hw : Platform) (d : Driver) (pin mv : Nat)
    (hb : hw.Benign) (h1 : 8 ≤ pin) (h2 : pin ≤ 30) :
    sentWords (setAnalogOut hw pin mv d).bus =
      sentWords d.bus ++
        [0x2800 ||| d.analogOutPins hw, 0x8000 ||| ((pin % 8) <<< 12) ||| a2d mv] ∧
    (setAnalogOut hw pin mv d).digitalOutPins hw = d.digitalOutPins hw ∧
    (setAnalogOut hw pin mv d).digitalInPins hw = d.digitalInPins hw ∧
    (setAnalogOut hw pin mv d).analogOutPins hw = d.analogOutPins hw ∧
    (setAnalogOut hw pin mv d).analogInPins hw = d.analogInPins hw := by
  have hp : pin % 256 = pin := Nat.mod_eq_of_lt (by omega)
  have hlt : d.analogOutPins hw < 256 := d.load_lt hw.analogOutAt
  have hbit : (d.analogOutPins hw).testBit pin = false := by
    apply Nat.testBit_lt_two_pow
    have h8 : (2 : Nat) ^ 8 ≤ 2 ^ pin := Nat.pow_le_pow_right (by decide) h1
    omega
  have hm := lor_one_shl_mod (d.analogOutPins hw) pin hlt h1
  have hw16 := dacWord_lt (pin % 8) mv (by omega)
  obtain ⟨f1, f2, f3⟩ := setAnalogOut_frame hw hb pin mv d
  refine ⟨?_, f1, f2, ?_, f3⟩
  · rw [setAnalogOut_eq, hp, dac_addr_mod pin h1 h2, sentWords_spiComs hw hb]
    simp only [hbit, Bool.false_eq_true, if_false]
    rw [sentWords_setAsDAC, hm, Nat.mod_eq_of_lt hw16]
    simp
  · have h := setAnalogOut_load hw pin mv d _ hb.2.1.2.2.1
    rw [if_pos rfl, hp, hm] at h
    exact h

theorem setAnalogOut_out_of_range_witness :
    Platform.sample.Benign ∧ (8 : Nat) ≤ 11 ∧ (11 : Nat) ≤ 30 ∧
    sentWords (setAnalogOut Platform.sample 11 2500
        (setAnalogOut Platform.sample 1 100 Driver.init)).bus =
      sentWords (setAnalogOut Platform.sample 1 100 Driver.init).bus ++ [0x2802, 0xB7FF] ∧
    (setAnalogOut Platform.sample 11 2500
        (setAnalogOut Platform.sample 1 100 Driver.init)).analogOutPins Platform.sample = 0x02 :=
  have h := setAnalogOut_out_of_range Platform.sample
    (setAnalogOut Platform.sample 1 100 Driver.init) 11 2500 (by decide) (by decide) (by decide)
  ⟨by decide, by decide, by decide, h.1.trans (by decide), h.2.2.2.1.trans (by decide)⟩

/-- C17: for every tracker state, on every layout, and for every pin mask that contains
at least one bit not in the tracked digital-out mask, `setDigitalOut pins states` issues
exactly one GPIO-write-config transaction: it sends two words, the first is the
configuration word `0x4000 | (pins | cur)` and the second does not address the
GPIO-write-config register. -/
theorem setDigitalOut_one_config (hw : Platform) (d : Driver) (pins states : Nat)
    (hp : pins < 256) (hnew : pins ||| d.digitalOutPins hw ≠ d.digitalOutPins hw) :
    writeConfigCount (setDigitalOut hw pins states d).bus = writeConfigCount d.bus + 1 ∧
    ∃ w : Nat,
      sentWords (setDigitalOut hw pins states d).bus =
        sentWords d.bus ++ [0x4000 + (pins ||| d.digitalOutPins hw), w] ∧
      w >>> 11 ≠ AD5592_GPIO_WRITE_CONFIG >>> 11 := by
  have hne : pins ≠ d.digitalOutPins hw := by
    intro h
    apply hnew
    rw [h, Nat.or_self]
  have hs : states % 256 < 256 := Nat.mod_lt _ (by decide)
  have hu : pins ||| d.digitalOutPins hw < 256 := lor_lt_256 _ _ hp (d.load_lt hw.digitalOutAt)
  have e1 : (0x4000 + (pins ||| d.digitalOutPins hw)) >>> 11 = AD5592_GPIO_WRITE_CONFIG >>> 11 := by
    have e : AD5592_GPIO_WRITE_CONFIG >>> 11 = 8 := by decide
    rw [e, Nat.shiftRight_eq_div_pow]; omega
  obtain ⟨w, hw1, hnc⟩ : ∃ w : Nat,
      sentWords (setDigitalOut hw pins states d).bus =
        sentWords d.bus ++ [0x4000 + (pins ||| d.digitalOutPins hw), w] ∧
      w >>> 11 ≠ AD5592_GPIO_WRITE_CONFIG >>> 11 := by
    refine ⟨_, ?_, data_word_not_config hw (states % 256) hs⟩
    rw [setDigitalOut_eq, Nat.mod_eq_of_lt hp, if_neg hne, sentWords_spiComs_gen,
      setAsDigitalOut_bus, sentWords_append, Nat.mod_eq_of_lt hu]
    simp [sentWords, Event.word?, wireWord_pair _ _ hu]
  refine ⟨?_, w, hw1, hnc⟩
  unfold writeConfigCount
  rw [hw1]
  simp [List.countP_append, List.countP_cons, e1, hnc]

theorem setDigitalOut_one_config_witness :
    (0x06 : Nat) < 256 ∧
    0x06 ||| (setDigitalOut Platform.lp64 0x03 0x00
        (setAsDigitalOut Platform.lp64 0x01 Driver.init)).digitalOutPins Platform.lp64 ≠
      (setDigitalOut Platform.lp64 0x03 0x00
        (setAsDigitalOut Platform.lp64 0x01 Driver.init)).digitalOutPins Platform.lp64 ∧
    writeConfigCount (setDigitalOut Platform.lp64 0x06 0xFF
        (setDigitalOut Platform.lp64 0x03 0x00
          (setAsDigitalOut Platform.lp64 0x01 Driver.init))).bus =
      writeConfigCount (setDigitalOut Platform.lp64 0x03 0x00
          (setAsDigitalOut Platform.lp64 0x01 Driver.init)).bus + 1 ∧
    writeConfigCount (setDigitalOut Platform.lp64 0x06 0xFF
        (setDigitalOut Platform.lp64 0x03 0x00
          (setAsDigitalOut Platform.lp64 0x01 Driver.init))).bus = 3 :=
  have h := setDigitalOut_one_config Platform.lp64
    (setDigitalOut Platform.lp64 0x03 0x00 (setAsDigitalOut Platform.lp64 0x01 Driver.init))
    0x06 0xFF (by decide) (by decide)
  ⟨by decide, by decide, h.1, by decide⟩

/-- C18, the code at a failing input: with `spiOut` placed right behind `spiIn`, after
`setAnalogOut 3 500` has marked pin 3, the call `setAnalogOut 3 2500` issues one
transaction and no delay, but the transaction carries the bytes `[0x00, 0x00]`, not the
DAC-write word `0xB7FF`; likewise the second of two calls `getAnalogIn 3` issues three
transactions that all carry `[0x00, 0x00]`, no ADC-read select word.  With `spiOut` in
front of `spiIn` the second `setAnalogOut` adds the transfer of `[0xB7, 0xFF]` only. -/
theorem analog_repeat_word_zeroed :
    ((setAnalogOut Platform.outBehindIn 3 500 Driver.init).analogOutPins
      Platform.outBehindIn).testBit 3 = true ∧
    (setAnalogOut Platform.outBehindIn 3 2500
        (setAnalogOut Platform.outBehindIn 3 500 Driver.init)).bus =
      (setAnalogOut Platform.outBehindIn 3 500 Driver.init).bus ++
        [Event.transfernb [0x00, 0x00]] ∧
    0x8000 ||| (3 <<< 12) ||| a2d 2500 = 0xB7FF ∧
    (setAnalogOut Platform.outBehindIn 3 2500
        (setAnalogOut Platform.outBehindIn 3 500 Driver.init)).bus ≠
      (setAnalogOut Platform.outBehindIn 3 500 Driver.init).bus ++
        [Event.transfernb [0xB7, 0xFF]] ∧
    (getAnalogIn Platform.outBehindIn 3 (getAnalogIn Platform.outBehindIn 3 Driver.init).1).1.bus =
      (getAnalogIn Platform.outBehindIn 3 Driver.init).1.bus ++
        [Event.transfernb [0x00, 0x00], Event.transfernb [0x00, 0x00],
          Event.transfernb [0x00, 0x00]] ∧
    (setAnalogOut Platform.sample 3 2500 (setAnalogOut Platform.sample 3 500 Driver.init)).bus =
      (setAnalogOut Platform.sample 3 500 Driver.init).bus ++
        [Event.transfernb [0xB7, 0xFF]] := by
  decide

/-- C20, the code at a failing input: with `spiOut` placed right behind `spiIn`,
`setAnalogOut 3 2500` from the initial state issues the DAC-pin-select transfer, the
delay of `SHORT_DELAY` and a third transfer that carries the bytes `[0x00, 0x00]`, not
the DAC-write word `0xB7FF`; and `getAnalogIn 3` issues the ADC-pin-select transfer, the
delay and three transfers of `[0x00, 0x00]`, none of them the ADC-read select word.
With `spiOut` in front of `spiIn` the third event of `setAnalogOut 3 2500` is the transfer
of `[0xB7, 0xFF]`. -/
theorem analog_first_use_word_zeroed :
    (setAnalogOut Platform.outBehindIn 3 2500 Driver.init).bus =
      [Event.transfern [0x28, 0x08], Event.delay SHORT_DELAY, Event.transfernb [0x00, 0x00]] ∧
    (setAnalogOut Platform.outBehindIn 3 2500 Driver.init).bus ≠
      [Event.transfern [0x28, 0x08], Event.delay SHORT_DELAY, Event.transfernb [0xB7, 0xFF]] ∧
    0x8000 ||| (3 <<< 12) ||| a2d 2500 = 0xB7FF ∧
    (getAnalogIn Platform.outBehindIn 3 Driver.init).1.bus =
      [Event.transfern [0x20, 0x08], Event.delay SHORT_DELAY, Event.transfernb [0x00, 0x00],
        Event.transfernb [0x00, 0x00], Event.transfernb [0x00, 0x00]] ∧
    (setAnalogOut Platform.sample 3 2500 Driver.init).bus =
      [Event.transfern [0x28, 0x08], Event.delay SHORT_DELAY, Event.transfernb [0xB7, 0xFF]] := by
  decide

/-- C21, the code at a failing input: on a target with 4-byte pointers the loop of
`clearBuffer` stores at the indices 0, 1, 2 and 3; the indices 2 and 3 lie outside the
2-byte transfer buffer.  The two bytes of the buffer itself are zeroed; moreover, with
the variables in the order of the header, `clearBuffer(spiOut)` zeroes the two response
bytes held in `spiIn`, and with 8-byte pointers `clearBuffer(spiIn)` zeroes the tracked
digital-out mask. -/
theorem clearBuffer_stores_past_end :
    Platform.sample.ptrBytes = 4 ∧
    clearBufferIndices Platform.sample = [0, 1, 2, 3] ∧
    (clearBufferIndices Platform.sample).filter (fun i => decide (2 ≤ i)) = [2, 3] ∧
    (spiComs Platform.sample AD5592_NOP Driver.init).load (Platform.sample.spiInAt + 0) = 0xA1 ∧
    (spiComs Platform.sample AD5592_NOP Driver.init).load (Platform.sample.spiInAt + 1) = 0x5A ∧
    (clearBuffer Platform.sample Platform.sample.spiInAt
      (spiComs Platform.sample AD5592_NOP Driver.init)).load (Platform.sample.spiInAt + 0) = 0 ∧
    (clearBuffer Platform.sample Platform.sample.spiInAt
      (spiComs Platform.sample AD5592_NOP Driver.init)).load (Platform.sample.spiInAt + 1) = 0 ∧
    (clearBuffer Platform.sample Platform.sample.spiOutAt
      (spiComs Platform.sample AD5592_NOP Driver.init)).load (Platform.sample.spiOutAt + 2) = 0 ∧
    (clearBuffer Platform.sample Platform.sample.spiOutAt
      (spiComs Platform.sample AD5592_NOP Driver.init)).load (Platform.sample.spiOutAt + 3) = 0 ∧
    Platform.sample.spiOutAt + 2 = Platform.sample.spiInAt + 0 ∧
    Platform.sample.spiOutAt + 3 = Platform.sample.spiInAt + 1 ∧
    clearBufferIndices Platform.lp64 = [0, 1, 2, 3, 4, 5, 6, 7] ∧
    (setAsDigitalOut Platform.lp64 0xFF Driver.init).digitalOutPins Platform.lp64 = 0xFF ∧
    (clearBuffer Platform.lp64 Platform.lp64.spiInAt
      (setAsDigitalOut Platform.lp64 0xFF Driver.init)).digitalOutPins Platform.lp64 = 0 := by
  decide

/-- C22: out-of-range millivolt input is not rejected and corrupts the command: for
pin 2 and 6000 mV, `a2d` gives 4914, above 4095, and in every state and on every layout
the last word sent by `setAnalogOut` carries in bits 14:12 a channel address other than
2; from the initial state on a 32-bit target with the variables in the order of the
header the word is `0xB332`, whose bits 14:12 hold channel address 3. -/
theorem out_of_range_millivolts_corrupt_address :
    ∃ pin mv : Nat, pin ≤ 7 ∧ 5001 ≤ mv ∧ mv ≤ 65535 ∧ 4095 < a2d mv ∧
      (∀ (hw : Platform) (d : Driver), ∃ w : Nat,
        (sentWords (setAnalogOut hw pin mv d).bus).getLast? = some w ∧
        (w >>> 12) &&& 0x7 ≠ pin) ∧
      (sentWords (setAnalogOut Platform.sample pin mv Driver.init).bus).getLast? =
        some 0xB332 ∧
      (0xB332 >>> 12) &&& 0x7 = 3 := by
  refine ⟨2, 6000, by decide, by decide, by decide, by decide, ?_, by decide, by decide⟩
  intro hw d
  have hl : (sentWords (setAnalogOut hw 2 6000 d).bus).getLast? =
      some (256 * (if hw.clears hw.spiInAt hw.spiOutAt then 0 else 0xB3) +
        (if hw.clears hw.spiInAt (hw.spiOutAt + 1) then 0 else 0x32)) := by
    rw [setAnalogOut_eq, sentWords_spiComs_gen, List.getLast?_append, dac_word_2_6000.1,
      dac_word_2_6000.2]
    rfl
  refine ⟨_, hl, ?_⟩
  split <;> split <;> decide

/-- C23, the code at a failing input: with 8-byte pointers and the variables placed in
the order of the header, in the state that `setAsDigitalOut 0xFF` leaves (tracked
digital-out mask `0xFF`), each of `setAnalogOut 0 100`, `getAnalogIn 0` and
`getDigitalIn 0x01` zeroes the digital-out mask, a mask that is not its own; and
`setDigitalOut 0x0F 0x00` leaves its own mask at 0, which does not contain the old value
`0xFF`.  With 4-byte pointers `setAnalogOut 0 100` leaves the digital-out mask at `0xFF`. -/
theorem operations_zero_other_masks :
    (setAsDigitalOut Platform.lp64 0xFF Driver.init).digitalOutPins Platform.lp64 = 0xFF ∧
    (setAnalogOut Platform.lp64 0 100
      (setAsDigitalOut Platform.lp64 0xFF Driver.init)).digitalOutPins Platform.lp64 = 0 ∧
    (getAnalogIn Platform.lp64 0
      (setAsDigitalOut Platform.lp64 0xFF Driver.init)).1.digitalOutPins Platform.lp64 = 0 ∧
    (getDigitalIn Platform.lp64 0x01
      (setAsDigitalOut Platform.lp64 0xFF Driver.init)).1.digitalOutPins Platform.lp64 = 0 ∧
    (setDigitalOut Platform.lp64 0x0F 0x00
      (setAsDigitalOut Platform.lp64 0xFF Driver.init)).digitalOutPins Platform.lp64 = 0 ∧
    (setAsDigitalOut Platform.lp64 0xFF Driver.init).digitalOutPins Platform.lp64 &&&
      (setDigitalOut Platform.lp64 0x0F 0x00
        (setAsDigitalOut Platform.lp64 0xFF Driver.init)).digitalOutPins Platform.lp64 ≠
      (setAsDigitalOut Platform.lp64 0xFF Driver.init).digitalOutPins Platform.lp64 ∧
    (setAnalogOut Platform.sample 0 100
      (setAsDigitalOut Platform.sample 0xFF Driver.init)).digitalOutPins Platform.sample =
      0xFF := by
  decide

/-- C24: for every pin in 0..7 and every pair of response bytes of the transport, the
count that `getAnalogIn pin` reconstructs is in 0..4095 and the millivolt value it
returns is in 0..5000. -/
theorem getAnalogIn_in_range (hw : Platform) (d : Driver) (pin : Nat) (hpin : pin ≤ 7) :
    (getAnalogIn hw pin d).2 ≤ 5000 ∧
    ∃ count : Nat, count ≤ 4095 ∧ (getAnalogIn hw pin d).2 = d2a count ∧
      count = (((hw.miso (getAnalogIn hw pin d).1.bus).1 % 256 &&& 0x0F) <<< 8) |||
        (hw.miso (getAnalogIn hw pin d).1.bus).2 % 256 := by
  have _ := hpin
  have hc := adc_count_le ((hw.miso (getAnalogIn hw pin d).1.bus).1 % 256)
    ((hw.miso (getAnalogIn hw pin d).1.bus).2 % 256) (Nat.mod_lt _ (by decide))
  have hr := getAnalogIn_result hw pin d
  refine ⟨?_, _, hc, hr, rfl⟩
  rw [hr, d2a_eq_floor _ hc]
  omega

theorem getAnalogIn_in_range_witness :
    (7 : Nat) ≤ 7 ∧ (getAnalogIn Platform.allOnes 7 Driver.init).2 ≤ 5000 ∧
    (getAnalogIn Platform.allOnes 7 Driver.init).2 = 5000 :=
  ⟨by decide, (getAnalogIn_in_range Platform.allOnes Driver.init 7 (by decide)).1, by decide⟩

/-- C25: in the analog check of the acceptance test, for every target count and every
measured result (`uint16_t` values, so in particular 0..4095 and targets below 41), PASS
is reported if and only if `|result - target| * 100 ≤ 4095`, that is, if and only if the
result is within 40 counts of the target. -/
theorem analogIOTest_pass_iff (target result : Nat) (ht : target < 65536)
    (hr : result < 65536) :
    analogIOTest_pass target result = true ↔ |(result : Int) - (target : Int)| * 100 ≤ 4095 := by
  simp only [analogIOTest_pass, Nat.mod_eq_of_lt ht, Nat.mod_eq_of_lt hr, Bool.and_eq_true,
    decide_eq_true_eq, TOLERANCE]
  rcases le_total (0 : Int) ((result : Int) - (target : Int)) with h | h
  · rw [abs_of_nonneg h]; omega
  · rw [abs_of_nonpos h]; omega

theorem analogIOTest_pass_iff_witness :
    (20 : Nat) < 65536 ∧ (0 : Nat) < 65536 ∧
    (analogIOTest_pass 20 0 = true ↔ |((0 : Nat) : Int) - ((20 : Nat) : Int)| * 100 ≤ 4095) ∧
    analogIOTest_pass 20 0 = true ∧ analogIOTest_pass 20 60 = true ∧
    analogIOTest_pass 20 61 = false ∧ analogIOTest_pass 2047 2006 = false :=
  ⟨by decide, by decide, analogIOTest_pass_iff 20 0 (by decide) (by decide),
    by decide, by decide, by decide, by decide⟩

end AD5592
